import Mathlib

/-!
# A verification development for the Monkey interpreter

A shallow embedding of the interpreter pipeline (lexer, Pratt parser,
tree-walking evaluator) of the Monkey language implementation, together
with theorems settling the specification claims about it.

Modelling conventions:
* Rust `i64` values are modelled as `Int`; the arithmetic operators wrap
  modulo `2 ^ 64` into the signed 64-bit range (release-build semantics of
  `+ - *`; the debug-build overflow aborts are not modelled, and no claim
  depends on the difference).  Division by zero and `i64::MIN / -1`, which
  abort in every build profile, are modelled as a distinct `crash` outcome.
* `anyhow::Result` is `Except String`; evaluator results also distinguish
  a Rust panic (`RRes.crash`) from an error value (`RRes.err`).
* The lexer walks a `List Char`; the Rust code walks byte indices of a
  UTF-8 string one scalar value at a time, which is the same traversal.
* The parser pulls tokens lazily in Rust; since the lexer is total and
  deterministic, pre-lexing the whole input is observationally identical.
  Parser recursion is bounded by explicit fuel, spent one unit per call
  edge so that the recursion is structural and computes in the kernel;
  `8 * tokens + 32` units are ample.
-/

namespace Monkey

/-! ## Character classes used by the lexer (`lexer.rs`)

`can_use_as_ident` in `lexer.rs` is built from Rust's `char` predicates
`is_ascii_digit`, `is_whitespace` (Unicode White_Space), `is_control`
(Unicode Cc) and `is_ascii_punctuation`.  `read_number` continues on
`is_numeric`; the full Unicode numeric table is not reproduced here, only
ASCII digits (the two differ only on exotic literals such as "1٢", which
no claim touches). -/

def char_is_ascii_digit (c : Char) : Bool :=
  Nat.ble 0x30 c.val.toNat && Nat.ble c.val.toNat 0x39

/-- Unicode White_Space, the set behind Rust's `char::is_whitespace`. -/
def char_is_whitespace (c : Char) : Bool :=
  let n := c.val.toNat
  n == 0x09 || n == 0x0A || n == 0x0B || n == 0x0C || n == 0x0D ||
  n == 0x20 || n == 0x85 || n == 0xA0 || n == 0x1680 ||
  (Nat.ble 0x2000 n && Nat.ble n 0x200A) ||
  n == 0x2028 || n == 0x2029 || n == 0x202F || n == 0x205F || n == 0x3000

/-- Unicode category Cc, the set behind Rust's `char::is_control`. -/
def char_is_control (c : Char) : Bool :=
  let n := c.val.toNat
  Nat.ble n 0x1F || (Nat.ble 0x7F n && Nat.ble n 0x9F)

/-- ASCII punctuation, the set behind Rust's `char::is_ascii_punctuation`. -/
def char_is_ascii_punctuation (c : Char) : Bool :=
  let n := c.val.toNat
  (Nat.ble 0x21 n && Nat.ble n 0x2F) || (Nat.ble 0x3A n && Nat.ble n 0x40) ||
  (Nat.ble 0x5B n && Nat.ble n 0x60) || (Nat.ble 0x7B n && Nat.ble n 0x7E)

/-- `can_use_as_ident` from `lexer.rs`. -/
def can_use_as_ident (c : Char) : Bool :=
  !(char_is_ascii_digit c || char_is_whitespace c || char_is_control c ||
    char_is_ascii_punctuation c)

/-- Rust's `char::is_numeric` restricted to ASCII digits (see the note
above): the continuation predicate of `read_number`. -/
def char_is_numeric (c : Char) : Bool := char_is_ascii_digit c

/-! ## Token model (`token.rs`)

The `TokenType` enumeration written in the checked-in `token.rs` is stale:
it has only 14 variants and lacks `MINUS`, `BANG`, `ASTERISK`, `SLASH`,
`LT`, `GT`, `EQ`, `NOT_EQ`, `TRUE`, `FALSE`, `IF`, `ELSE` and `RETURN`,
all of which `lexer.rs`, `parser.rs` and their tests reference; likewise
`Token.literal` is declared `&str` there while every constructor in
`lexer.rs` and `parser.rs` builds it from a `String`.  The full variant
set below is the one the rest of the crate (and the spec's token model)
requires. -/

inductive TokenType where
  | ILLEGAL | EOF
  | IDENT | INT
  | ASSIGN | PLUS | MINUS | BANG | ASTERISK | SLASH
  | LT | GT | EQ | NOT_EQ
  | COMMA | SEMICOLON
  | LPAREN | RPAREN | LBRACE | RBRACE
  | FUNCTION | LET | TRUE | FALSE | IF | ELSE | RETURN
deriving DecidableEq, Repr

structure Token where
  token_type : TokenType
  literal : String
deriving DecidableEq, Repr

/-- `TokenType::lookup_ident` exactly as written in the checked-in
`token.rs`: only `fn` and `let` are reclassified. -/
def TokenType.lookup_ident (ident : String) : TokenType :=
  match ident with
  | "fn" => TokenType.FUNCTION
  | "let" => TokenType.LET
  | _ => TokenType.IDENT

/-- Modelled from the spec: the full keyword lookup table.  The checked-in
`token.rs` is a stale snapshot whose table knows only `fn` and `let` (see
`TokenType.lookup_ident` above), but the lexer tests in `lexer.rs` and the
whole parser/evaluator test suite require `true`, `false`, `if`, `else`
and `return` to be reclassified as well; the spec lists exactly these
seven keywords.  The working lexer below uses this table. -/
def lookup_ident_full (ident : String) : TokenType :=
  match ident with
  | "fn" => TokenType.FUNCTION
  | "let" => TokenType.LET
  | "true" => TokenType.TRUE
  | "false" => TokenType.FALSE
  | "if" => TokenType.IF
  | "else" => TokenType.ELSE
  | "return" => TokenType.RETURN
  | _ => TokenType.IDENT

/-! ## Lexer (`lexer.rs`)

State convention: the remaining input including the current symbol.  The
Rust lexer's `symbol` is the head of that list (`None` when empty), and
`read_symbol` is `List.tail`. -/

/-- The `=`, `+`, `-` and `!` arms of the `match` in `Lexer::next_token`,
in source order (`=` and `!` look one character ahead). -/
def next_token_ops1 (c : Char) (rest : List Char) : Option (Token × List Char) :=
  if c = '=' then
    some (if rest.head? = some '=' then (⟨TokenType.EQ, "=="⟩, rest.tail)
      else (⟨TokenType.ASSIGN, "="⟩, rest))
  else if c = '+' then some (⟨TokenType.PLUS, "+"⟩, rest)
  else if c = '-' then some (⟨TokenType.MINUS, "-"⟩, rest)
  else if c = '!' then
    some (if rest.head? = some '=' then (⟨TokenType.NOT_EQ, "!="⟩, rest.tail)
      else (⟨TokenType.BANG, "!"⟩, rest))
  else none

/-- The `*`, `/`, `<` and `>` arms of `Lexer::next_token`. -/
def next_token_ops2 (c : Char) (rest : List Char) : Option (Token × List Char) :=
  if c = '*' then some (⟨TokenType.ASTERISK, "*"⟩, rest)
  else if c = '/' then some (⟨TokenType.SLASH, "/"⟩, rest)
  else if c = '<' then some (⟨TokenType.LT, "<"⟩, rest)
  else if c = '>' then some (⟨TokenType.GT, ">"⟩, rest)
  else none

/-- The delimiter arms (`,`, `;`, parentheses, braces) of
`Lexer::next_token`. -/
def next_token_delims (c : Char) (rest : List Char) : Option (Token × List Char) :=
  if c = ',' then some (⟨TokenType.COMMA, ","⟩, rest)
  else if c = ';' then some (⟨TokenType.SEMICOLON, ";"⟩, rest)
  else if c = '(' then some (⟨TokenType.LPAREN, "("⟩, rest)
  else if c = ')' then some (⟨TokenType.RPAREN, ")"⟩, rest)
  else if c = '\x7b' then some (⟨TokenType.LBRACE, "\x7b"⟩, rest)
  else if c = '\x7d' then some (⟨TokenType.RBRACE, "\x7d"⟩, rest)
  else none

/-- One step of `Lexer::next_token`, given a nonempty stream whose current
symbol is `c` and whose later characters are `rest` (whitespace already
skipped).  Returns the token and the stream state after the trailing
`read_symbol` of `next_token`.  The arms are checked in the source order
of the Rust `match` (the groups are disjoint, so the factoring into the
three helpers above preserves it). -/
def next_token_core (c : Char) (rest : List Char) : Token × List Char :=
  match next_token_ops1 c rest with
  | some p => p
  | none =>
  match next_token_ops2 c rest with
  | some p => p
  | none =>
  match next_token_delims c rest with
  | some p => p
  | none =>
  if char_is_ascii_digit c then
    (⟨TokenType.INT, String.mk (c :: rest.takeWhile char_is_numeric)⟩,
      rest.dropWhile char_is_numeric)
  else if can_use_as_ident c then
    let literal := String.mk (c :: rest.takeWhile can_use_as_ident)
    (⟨lookup_ident_full literal, literal⟩, rest.dropWhile can_use_as_ident)
  else
    (⟨TokenType.ILLEGAL, String.mk [c]⟩, rest)

theorem next_token_ops1_length (c : Char) (rest : List Char) :
    ∀ p, next_token_ops1 c rest = some p → p.2.length ≤ rest.length := by
  have ht : rest.tail.length ≤ rest.length := by cases rest <;> simp
  unfold next_token_ops1
  repeat' split
  all_goals intro p hp
  all_goals first
    | exact (Option.noConfusion hp)
    | (cases hp; first | exact ht | exact Nat.le_refl _)

theorem next_token_ops2_length (c : Char) (rest : List Char) :
    ∀ p, next_token_ops2 c rest = some p → p.2.length ≤ rest.length := by
  unfold next_token_ops2
  repeat' split
  all_goals intro p hp
  all_goals first
    | exact (Option.noConfusion hp)
    | (cases hp; exact Nat.le_refl _)

theorem next_token_delims_length (c : Char) (rest : List Char) :
    ∀ p, next_token_delims c rest = some p → p.2.length ≤ rest.length := by
  unfold next_token_delims
  repeat' split
  all_goals intro p hp
  all_goals first
    | exact (Option.noConfusion hp)
    | (cases hp; exact Nat.le_refl _)

theorem next_token_core_length (c : Char) (rest : List Char) :
    (next_token_core c rest).2.length ≤ rest.length := by
  have hd : ∀ p : Char → Bool, (rest.dropWhile p).length ≤ rest.length :=
    fun p => (List.dropWhile_sublist p).length_le
  unfold next_token_core
  split
  case _ p hp => exact next_token_ops1_length c rest p hp
  split
  case _ p hp => exact next_token_ops2_length c rest p hp
  split
  case _ p hp => exact next_token_delims_length c rest p hp
  repeat' split
  all_goals first | exact hd _ | exact Nat.le_refl _

/-- The token sequence of an input, up to (not including) the terminal
`EOF` token; the Rust lexer yields `EOF` forever once the input is
exhausted, which the parser embedding reproduces by padding.  The fuel
argument of the worker is an embedding artifact: every step consumes at
least one character, so `length + 1` units always suffice
(`lex_fuel_enough` below), and the recursion stays structural so that
concrete runs compute inside the kernel. -/
def lex_fuel : Nat → List Char → List Token
  | 0, _ => []
  | fuel + 1, l =>
    match l.dropWhile char_is_whitespace with
    | [] => []
    | c :: rest =>
      let p := next_token_core c rest
      p.1 :: lex_fuel fuel p.2

def lex_list (l : List Char) : List Token := lex_fuel (l.length + 1) l

def lex_string (s : String) : List Token := lex_list s.data

/-! ## AST (`ast.rs`) -/

mutual
inductive Statement where
  | EmptyStatement
  | LetStatement (name : String) (value : Expression)
  | ReturnStatement (e : Expression)
  | ExpressionStatement (e : Expression)
  | BlockStatement (statements : List Statement)
inductive Expression where
  | EmptyExpression
  | Identifier (name : String)
  | IntegerLiteral (i : Int)
  | Boolean (b : Bool)
  | PrefixExpression (operator : String) (right : Expression)
  | InfixExpression (left : Expression) (operator : String) (right : Expression)
  | IfExpression (condition : Expression) (consequence : Statement)
      (alternative : Option Statement)
  | FunctionLiteral (parameters : List Expression) (body : Statement)
  | CallExpression (function : Expression) (arguments : List Expression)
end

structure Program where
  statements : List Statement

/-- `stmt != Statement::EmptyStatement`, the filter used by
`parse_program` and `parse_block_statement`. -/
def is_empty_statement : Statement → Bool
  | Statement.EmptyStatement => true
  | _ => false

/-! ## Pretty-printing (`impl Display` in `ast.rs`)

The printers produce `List Char`; `String` is a wrapper around exactly
that list, so the `String`-level texts of the claims are `⟨these lists⟩`.
Braces are written with their `\x7b`/`\x7d` escapes throughout. -/

/-- Decimal digits of a natural number, most significant first, mirroring
the integer `Display` used by Rust for `i64`.  The fuel of the worker is
an embedding artifact; `n + 1` units always suffice since the argument
shrinks by a factor of ten each step. -/
def nat_chars_fuel : Nat → Nat → List Char
  | 0, _ => []
  | fuel + 1, n =>
    if n < 10 then [Char.ofNat (48 + n)]
    else nat_chars_fuel fuel (n / 10) ++ [Char.ofNat (48 + n % 10)]

def nat_chars (n : Nat) : List Char := nat_chars_fuel (n + 1) n

def int_chars (i : Int) : List Char :=
  if i < 0 then '-' :: nat_chars (- i).toNat else nat_chars i.toNat

mutual
/-- `Display for Expression`. -/
def expr_chars : Expression → List Char
  | Expression.EmptyExpression => []
  | Expression.Identifier name => name.data
  | Expression.IntegerLiteral i => int_chars i
  | Expression.Boolean b => if b then "true".data else "false".data
  | Expression.PrefixExpression operator right =>
      '(' :: (operator.data ++ expr_chars right) ++ [')']
  | Expression.InfixExpression left operator right =>
      '(' :: (expr_chars left ++ ' ' :: operator.data ++ ' ' :: expr_chars right)
        ++ [')']
  | Expression.IfExpression condition consequence alternative =>
      "if ".data ++ expr_chars condition ++ ' ' :: stmt_chars consequence
        ++ ' ' :: (match alternative with
          | some alt => "else ".data ++ stmt_chars alt
          | none => [])
  | Expression.FunctionLiteral parameters body =>
      "fn(".data ++ comma_join parameters ++ ") ".data ++ stmt_chars body
  | Expression.CallExpression function arguments =>
      expr_chars function ++ '(' :: comma_join arguments ++ [')']

/-- `.join(", ")` over printed expressions (parameters, arguments). -/
def comma_join : List Expression → List Char
  | [] => []
  | [e] => expr_chars e
  | e :: rest => expr_chars e ++ ", ".data ++ comma_join rest

/-- `Display for Statement`. -/
def stmt_chars : Statement → List Char
  | Statement.EmptyStatement => []
  | Statement.LetStatement name value =>
      "let ".data ++ name.data ++ " = ".data ++ expr_chars value ++ [';']
  | Statement.ReturnStatement e => "return ".data ++ expr_chars e ++ [';']
  | Statement.ExpressionStatement e => expr_chars e
  | Statement.BlockStatement statements =>
      '\x7b' :: '\n' :: ' ' :: newline_join statements ++ ['\n', '\x7d']

/-- `.join("\n")` over printed statements (blocks and programs). -/
def newline_join : List Statement → List Char
  | [] => []
  | [s] => stmt_chars s
  | s :: rest => stmt_chars s ++ '\n' :: newline_join rest
end

/-- `Display for Program`. -/
def program_chars (p : Program) : List Char := newline_join p.statements

def program_string (p : Program) : String := ⟨program_chars p⟩

/-! ## Parser (`parser.rs`)

State convention: the list of not-yet-finished tokens, whose head is the
parser's `cur_token`; `peek_token` is the element after it, and the Rust
lexer's endless stream of `EOF` tokens is reproduced by padding with
`eof_token` past the end of the list.  Every parsing function returns the
parsed node together with the state whose head is the last token of that
node, exactly as the Rust parser leaves `cur_token` there. -/

def eof_token : Token := ⟨TokenType.EOF, ""⟩

def cur_tok (ts : List Token) : Token := ts.headD eof_token

def peek_tok (ts : List Token) : Token := (ts.drop 1).headD eof_token

/-- `Parser::next_token`. -/
def adv (ts : List Token) : List Token := ts.drop 1

/-- The derived `Debug` rendering of a `TokenType` (its variant name),
used inside parser error messages. -/
def tt_debug : TokenType → String
  | TokenType.ILLEGAL => "ILLEGAL"
  | TokenType.EOF => "EOF"
  | TokenType.IDENT => "IDENT"
  | TokenType.INT => "INT"
  | TokenType.ASSIGN => "ASSIGN"
  | TokenType.PLUS => "PLUS"
  | TokenType.MINUS => "MINUS"
  | TokenType.BANG => "BANG"
  | TokenType.ASTERISK => "ASTERISK"
  | TokenType.SLASH => "SLASH"
  | TokenType.LT => "LT"
  | TokenType.GT => "GT"
  | TokenType.EQ => "EQ"
  | TokenType.NOT_EQ => "NOT_EQ"
  | TokenType.COMMA => "COMMA"
  | TokenType.SEMICOLON => "SEMICOLON"
  | TokenType.LPAREN => "LPAREN"
  | TokenType.RPAREN => "RPAREN"
  | TokenType.LBRACE => "LBRACE"
  | TokenType.RBRACE => "RBRACE"
  | TokenType.FUNCTION => "FUNCTION"
  | TokenType.LET => "LET"
  | TokenType.TRUE => "TRUE"
  | TokenType.FALSE => "FALSE"
  | TokenType.IF => "IF"
  | TokenType.ELSE => "ELSE"
  | TokenType.RETURN => "RETURN"

/-- `Parser::expect_peek`: advance when the peek token has the wanted
kind, report failure otherwise. -/
def expect_peek (t : TokenType) (ts : List Token) : Option (List Token) :=
  if (peek_tok ts).token_type = t then some (adv ts) else none

/-- The message of the `ensure!` guards around `expect_peek`. -/
def expect_msg (t : TokenType) (ts : List Token) : String :=
  "expected next token to be " ++ tt_debug t ++ ", got " ++
    tt_debug (peek_tok ts).token_type ++ " instead"

/-- The `Precedence` enum; the source's `PREFIX` variant is spelled
`PREFIXP` here. -/
inductive Precedence where
  | LOWEST | EQUALS | LESSGREATER | SUM | PRODUCT | PREFIXP | CALL
deriving DecidableEq, Repr

def Precedence.toNat : Precedence → Nat
  | Precedence.LOWEST => 0
  | Precedence.EQUALS => 1
  | Precedence.LESSGREATER => 2
  | Precedence.SUM => 3
  | Precedence.PRODUCT => 4
  | Precedence.PREFIXP => 5
  | Precedence.CALL => 6

/-- The derived `PartialOrd` comparison on `Precedence` (declaration
order). -/
def Precedence.lt (a b : Precedence) : Prop := a.toNat < b.toNat

instance (a b : Precedence) : Decidable (a.lt b) :=
  inferInstanceAs (Decidable (a.toNat < b.toNat))

def Precedence.from_token_type : TokenType → Precedence
  | TokenType.EQ => Precedence.EQUALS
  | TokenType.NOT_EQ => Precedence.EQUALS
  | TokenType.LT => Precedence.LESSGREATER
  | TokenType.GT => Precedence.LESSGREATER
  | TokenType.PLUS => Precedence.SUM
  | TokenType.MINUS => Precedence.SUM
  | TokenType.SLASH => Precedence.PRODUCT
  | TokenType.ASTERISK => Precedence.PRODUCT
  | TokenType.LPAREN => Precedence.CALL
  | _ => Precedence.LOWEST

def digits_to_nat (l : List Char) : Nat :=
  l.foldl (fun a c => 10 * a + (c.val.toNat - 48)) 0

/-- `str::parse::<i64>` on the digit strings the lexer produces
(`read_number` always starts at an ASCII digit and never includes a
sign), including the 64-bit range check. -/
def i64_from_str (s : String) : Except String Int :=
  if s.data = [] then Except.error "cannot parse integer from empty string"
  else if s.data.all char_is_ascii_digit then
    if digits_to_nat s.data < 2 ^ 63 then
      Except.ok (Int.ofNat (digits_to_nat s.data))
    else Except.error "number too large to fit in target type"
  else Except.error "invalid digit found in string"

/-- Message of the fuel guard, an artifact of the embedding only: the
generous fuel budget of `parse_program` below never runs out on the
inputs any theorem touches. -/
def fuel_msg : String := "internal: parser fuel exhausted"

def parse_identifier (ts : List Token) :
    Except String (Expression × List Token) :=
  Except.ok (Expression.Identifier (cur_tok ts).literal, ts)

def parse_integer_literal (ts : List Token) :
    Except String (Expression × List Token) :=
  match i64_from_str (cur_tok ts).literal with
  | Except.ok v => Except.ok (Expression.IntegerLiteral v, ts)
  | Except.error e => Except.error e

def parse_boolean (ts : List Token) :
    Except String (Expression × List Token) :=
  Except.ok (Expression.Boolean ((cur_tok ts).token_type == TokenType.TRUE), ts)

mutual

/-- The statement loop of `Parser::parse_program` (push unless the parsed
statement is empty, then advance).  Fuel recursion is structural, so that
concrete parses compute inside the kernel; every mutual call passes the
fuel predecessor. -/
def parse_program_loop : Nat → List Token → Except String (List Statement)
  | 0, _ => Except.error fuel_msg
  | fuel + 1, ts =>
    if (cur_tok ts).token_type = TokenType.EOF then Except.ok []
    else
      match parse_statement fuel ts with
      | Except.error e => Except.error e
      | Except.ok (stmt, ts1) =>
        match parse_program_loop fuel (adv ts1) with
        | Except.error e => Except.error e
        | Except.ok rest =>
          Except.ok (if is_empty_statement stmt then rest else stmt :: rest)

def parse_statement : Nat → List Token → Except String (Statement × List Token)
  | 0, _ => Except.error fuel_msg
  | fuel + 1, ts =>
    match (cur_tok ts).token_type with
    | TokenType.LET => parse_let_statement fuel ts
    | TokenType.RETURN => parse_return_statement fuel ts
    | TokenType.LBRACE => parse_block_statement fuel ts
    | _ => parse_expression_statement fuel ts

def parse_let_statement : Nat → List Token →
    Except String (Statement × List Token)
  | 0, _ => Except.error fuel_msg
  | fuel + 1, ts =>
    match expect_peek TokenType.IDENT ts with
    | none => Except.error (expect_msg TokenType.IDENT ts)
    | some ts1 =>
      let name := (cur_tok ts1).literal
      match expect_peek TokenType.ASSIGN ts1 with
      | none => Except.error (expect_msg TokenType.ASSIGN ts1)
      | some ts2 =>
        match parse_expression fuel Precedence.LOWEST (adv ts2) with
        | Except.error e => Except.error e
        | Except.ok (value, ts3) =>
          match expect_peek TokenType.SEMICOLON ts3 with
          | none => Except.error (expect_msg TokenType.SEMICOLON ts3)
          | some ts4 => Except.ok (Statement.LetStatement name value, ts4)

def parse_return_statement : Nat → List Token →
    Except String (Statement × List Token)
  | 0, _ => Except.error fuel_msg
  | fuel + 1, ts =>
    match parse_expression fuel Precedence.LOWEST (adv ts) with
    | Except.error e => Except.error e
    | Except.ok (value, ts1) =>
      match expect_peek TokenType.SEMICOLON ts1 with
      | none => Except.error (expect_msg TokenType.SEMICOLON ts1)
      | some ts2 => Except.ok (Statement.ReturnStatement value, ts2)

def parse_block_statement : Nat → List Token →
    Except String (Statement × List Token)
  | 0, _ => Except.error fuel_msg
  | fuel + 1, ts =>
    match parse_block_loop fuel (adv ts) with
    | Except.error e => Except.error e
    | Except.ok (stmts, ts1) => Except.ok (Statement.BlockStatement stmts, ts1)

/-- The statement loop of `Parser::parse_block_statement`; stops with the
current token at `RBRACE` (or `EOF`). -/
def parse_block_loop : Nat → List Token →
    Except String (List Statement × List Token)
  | 0, _ => Except.error fuel_msg
  | fuel + 1, ts =>
    if (cur_tok ts).token_type = TokenType.RBRACE ∨
        (cur_tok ts).token_type = TokenType.EOF then Except.ok ([], ts)
    else
      match parse_statement fuel ts with
      | Except.error e => Except.error e
      | Except.ok (stmt, ts1) =>
        match parse_block_loop fuel (adv ts1) with
        | Except.error e => Except.error e
        | Except.ok (rest, ts2) =>
          Except.ok
            ((if is_empty_statement stmt then rest else stmt :: rest), ts2)

def parse_expression_statement : Nat → List Token →
    Except String (Statement × List Token)
  | 0, _ => Except.error fuel_msg
  | fuel + 1, ts =>
    match parse_expression fuel Precedence.LOWEST ts with
    | Except.error e => Except.error e
    | Except.ok (e, ts1) =>
      if (peek_tok ts1).token_type = TokenType.SEMICOLON then
        Except.ok (Statement.ExpressionStatement e, adv ts1)
      else Except.ok (Statement.ExpressionStatement e, ts1)

def parse_expression : Nat → Precedence → List Token →
    Except String (Expression × List Token)
  | 0, _, _ => Except.error fuel_msg
  | fuel + 1, precedence, ts =>
    match parse_prefix_dispatch fuel ts with
    | Except.error e => Except.error e
    | Except.ok (left, ts1) => pratt_loop fuel precedence left ts1

/-- The `while` loop of `Parser::parse_expression`: fold infix operators
whose precedence exceeds `precedence` into `left`. -/
def pratt_loop : Nat → Precedence → Expression → List Token →
    Except String (Expression × List Token)
  | 0, _, _, _ => Except.error fuel_msg
  | fuel + 1, precedence, left, ts =>
    if (peek_tok ts).token_type ≠ TokenType.SEMICOLON ∧
        Precedence.lt precedence
          (Precedence.from_token_type (peek_tok ts).token_type) then
      match parse_infix_dispatch fuel left (adv ts) with
      | Except.error e => Except.error e
      | Except.ok (left2, ts2) => pratt_loop fuel precedence left2 ts2
    else Except.ok (left, ts)

/-- `Parser::parse_prefix` together with `get_prefix_parse_fn`: dispatch
on the current token kind or fail. -/
def parse_prefix_dispatch : Nat → List Token →
    Except String (Expression × List Token)
  | 0, _ => Except.error fuel_msg
  | fuel + 1, ts =>
    match (cur_tok ts).token_type with
    | TokenType.IDENT => parse_identifier ts
    | TokenType.INT => parse_integer_literal ts
    | TokenType.TRUE => parse_boolean ts
    | TokenType.FALSE => parse_boolean ts
    | TokenType.BANG => parse_prefix_expression fuel ts
    | TokenType.MINUS => parse_prefix_expression fuel ts
    | TokenType.LPAREN => parse_grouped_expression fuel ts
    | TokenType.IF => parse_if_expression fuel ts
    | TokenType.FUNCTION => parse_function_literal fuel ts
    | t =>
      Except.error ("no prefix parse function for " ++ tt_debug t ++ " found")

def parse_prefix_expression : Nat → List Token →
    Except String (Expression × List Token)
  | 0, _ => Except.error fuel_msg
  | fuel + 1, ts =>
    let operator := (cur_tok ts).literal
    if (cur_tok ts).token_type = TokenType.BANG ∨
        (cur_tok ts).token_type = TokenType.MINUS then
      match parse_expression fuel Precedence.PREFIXP (adv ts) with
      | Except.error e => Except.error e
      | Except.ok (right, ts1) =>
        Except.ok (Expression.PrefixExpression operator right, ts1)
    else
      Except.error ("expected token to be BANG or MINUS, got " ++
        tt_debug (cur_tok ts).token_type ++ " instead")

def parse_grouped_expression : Nat → List Token →
    Except String (Expression × List Token)
  | 0, _ => Except.error fuel_msg
  | fuel + 1, ts =>
    match parse_expression fuel Precedence.LOWEST (adv ts) with
    | Except.error e => Except.error e
    | Except.ok (e, ts1) =>
      match expect_peek TokenType.RPAREN ts1 with
      | some ts2 => Except.ok (e, ts2)
      | none => Except.error (expect_msg TokenType.RPAREN ts1)

def parse_if_expression : Nat → List Token →
    Except String (Expression × List Token)
  | 0, _ => Except.error fuel_msg
  | fuel + 1, ts =>
    match expect_peek TokenType.LPAREN ts with
    | none => Except.error (expect_msg TokenType.LPAREN ts)
    | some ts1 =>
      match parse_expression fuel Precedence.LOWEST (adv ts1) with
      | Except.error e => Except.error e
      | Except.ok (condition, ts2) =>
        match expect_peek TokenType.RPAREN ts2 with
        | none => Except.error (expect_msg TokenType.RPAREN ts2)
        | some ts3 =>
          match expect_peek TokenType.LBRACE ts3 with
          | none => Except.error (expect_msg TokenType.LBRACE ts3)
          | some ts4 =>
            match parse_block_statement fuel ts4 with
            | Except.error e => Except.error e
            | Except.ok (consequence, ts5) =>
              if (peek_tok ts5).token_type = TokenType.ELSE then
                match expect_peek TokenType.LBRACE (adv ts5) with
                | none => Except.error (expect_msg TokenType.LBRACE (adv ts5))
                | some ts6 =>
                  match parse_block_statement fuel ts6 with
                  | Except.error e => Except.error e
                  | Except.ok (alt, ts7) =>
                    Except.ok
                      (Expression.IfExpression condition consequence
                        (some alt), ts7)
              else
                Except.ok
                  (Expression.IfExpression condition consequence none, ts5)

def parse_function_literal : Nat → List Token →
    Except String (Expression × List Token)
  | 0, _ => Except.error fuel_msg
  | fuel + 1, ts =>
    match expect_peek TokenType.LPAREN ts with
    | none => Except.error (expect_msg TokenType.LPAREN ts)
    | some ts1 =>
      match parse_function_parameters fuel ts1 with
      | Except.error e => Except.error e
      | Except.ok (parameters, ts2) =>
        match expect_peek TokenType.LBRACE ts2 with
        | none => Except.error (expect_msg TokenType.LBRACE ts2)
        | some ts3 =>
          match parse_block_statement fuel ts3 with
          | Except.error e => Except.error e
          | Except.ok (body, ts4) =>
            Except.ok (Expression.FunctionLiteral parameters body, ts4)

/-- `Parser::parse_function_parameters`.  Note that it wraps the literal
of whatever token stands in parameter position into an `Identifier`
without checking its kind. -/
def parse_function_parameters : Nat → List Token →
    Except String (List Expression × List Token)
  | 0, _ => Except.error fuel_msg
  | fuel + 1, ts =>
    if (peek_tok ts).token_type = TokenType.RPAREN then Except.ok ([], adv ts)
    else
      let ts1 := adv ts
      match params_more fuel ts1 with
      | Except.error e => Except.error e
      | Except.ok (rest, ts2) =>
        Except.ok (Expression.Identifier (cur_tok ts1).literal :: rest, ts2)

/-- The `while peek == COMMA` loop of `parse_function_parameters`,
followed by its final `expect_peek(RPAREN)`. -/
def params_more : Nat → List Token →
    Except String (List Expression × List Token)
  | 0, _ => Except.error fuel_msg
  | fuel + 1, ts =>
    if (peek_tok ts).token_type = TokenType.COMMA then
      let ts1 := adv (adv ts)
      match params_more fuel ts1 with
      | Except.error e => Except.error e
      | Except.ok (rest, ts2) =>
        Except.ok (Expression.Identifier (cur_tok ts1).literal :: rest, ts2)
    else
      match expect_peek TokenType.RPAREN ts with
      | some ts1 => Except.ok ([], ts1)
      | none => Except.error (expect_msg TokenType.RPAREN ts)

/-- `Parser::parse_infix` together with `get_infix_parse_fn`; tokens
without an infix strategy return `left` unchanged. -/
def parse_infix_dispatch : Nat → Expression → List Token →
    Except String (Expression × List Token)
  | 0, _, _ => Except.error fuel_msg
  | fuel + 1, left, ts =>
    match (cur_tok ts).token_type with
    | TokenType.PLUS | TokenType.MINUS | TokenType.SLASH | TokenType.ASTERISK
    | TokenType.EQ | TokenType.NOT_EQ | TokenType.LT | TokenType.GT =>
        parse_infix_expression fuel left ts
    | TokenType.LPAREN => parse_call_expression fuel left ts
    | _ => Except.ok (left, ts)

def parse_infix_expression : Nat → Expression → List Token →
    Except String (Expression × List Token)
  | 0, _, _ => Except.error fuel_msg
  | fuel + 1, left, ts =>
    let operator := (cur_tok ts).literal
    let precedence := Precedence.from_token_type (cur_tok ts).token_type
    match parse_expression fuel precedence (adv ts) with
    | Except.error e => Except.error e
    | Except.ok (right, ts1) =>
      Except.ok (Expression.InfixExpression left operator right, ts1)

def parse_call_expression : Nat → Expression → List Token →
    Except String (Expression × List Token)
  | 0, _, _ => Except.error fuel_msg
  | fuel + 1, function, ts =>
    match parse_call_arguments fuel ts with
    | Except.error e => Except.error e
    | Except.ok (arguments, ts1) =>
      Except.ok (Expression.CallExpression function arguments, ts1)

def parse_call_arguments : Nat → List Token →
    Except String (List Expression × List Token)
  | 0, _ => Except.error fuel_msg
  | fuel + 1, ts =>
    if (peek_tok ts).token_type = TokenType.RPAREN then Except.ok ([], adv ts)
    else
      match parse_expression fuel Precedence.LOWEST (adv ts) with
      | Except.error e => Except.error e
      | Except.ok (a, ts1) =>
        match args_more fuel ts1 with
        | Except.error e => Except.error e
        | Except.ok (rest, ts2) => Except.ok (a :: rest, ts2)

/-- The `while peek == COMMA` loop of `parse_call_arguments`, followed by
its final `expect_peek(RPAREN)`. -/
def args_more : Nat → List Token →
    Except String (List Expression × List Token)
  | 0, _ => Except.error fuel_msg
  | fuel + 1, ts =>
    if (peek_tok ts).token_type = TokenType.COMMA then
      match parse_expression fuel Precedence.LOWEST (adv (adv ts)) with
      | Except.error e => Except.error e
      | Except.ok (a, ts1) =>
        match args_more fuel ts1 with
        | Except.error e => Except.error e
        | Except.ok (rest, ts2) => Except.ok (a :: rest, ts2)
    else
      match expect_peek TokenType.RPAREN ts with
      | some ts1 => Except.ok ([], ts1)
      | none => Except.error (expect_msg TokenType.RPAREN ts)

end

/-- `Parser::parse_program` over the lexed tokens of a source text.  The
fuel budget is an embedding artifact (see `fuel_msg`): fuel is spent one
unit per call edge, the call depth between two consecutive token
consumptions is bounded by a small constant, and nesting always consumes
tokens, so `8·n + 32` is ample for `n` tokens. -/
def parse_program (src : String) : Except String Program :=
  let toks := lex_string src
  match parse_program_loop (8 * toks.length + 32) toks with
  | Except.ok stmts => Except.ok ⟨stmts⟩
  | Except.error e => Except.error e

/-! ## Runtime objects and environments (`object.rs`) -/

mutual
inductive Object where
  | Integer (i : Int)
  | Boolean (b : Bool)
  | Null
  | ReturnValue (o : Object)
  | FunctionObject (parameters : List Expression) (body : Statement)
      (env : Environment)
  | FunctionApplication (function : Object) (arguments : List Object)
/-- `Environment`: a store (`HashMap<String, Object>`, modelled as an
association list with the map's insert-overwrites semantics) plus an
optional owned outer environment. -/
inductive Environment where
  | mk (store : List (String × Object)) (outer : Option Environment)
end

def Environment.store : Environment → List (String × Object)
  | Environment.mk s _ => s

def Environment.outer : Environment → Option Environment
  | Environment.mk _ o => o

/-- `HashMap::get` on the store. -/
def store_get (l : List (String × Object)) (name : String) : Option Object :=
  match l with
  | [] => none
  | (k, v) :: rest => if k = name then some v else store_get rest name

/-- `HashMap::insert` on the store: the new binding replaces any binding
of the same key and leaves all others alone. -/
def store_insert (l : List (String × Object)) (name : String) (v : Object) :
    List (String × Object) :=
  (name, v) :: l.filter (fun p => p.1 ≠ name)

/-- `Environment::get`: look in the own store first, then walk outward.
(The Rust code matches on `store.get` first and on `outer` inside its
`None` arm; the two clauses here split on `outer` at the outside instead,
which gives the same function on every input — `store_get store name =
none` and `outer = None` still yield `none` — while keeping the recursion
structural.) -/
def Environment.get : Environment → String → Option Object
  | Environment.mk store none, name =>
    (match store_get store name with
      | some obj => some obj
      | none => none)
  | Environment.mk store (some out), name =>
    (match store_get store name with
      | some obj => some obj
      | none => out.get name)

/-- `Environment::set`: insert into the innermost store only. -/
def Environment.set : Environment → String → Object → Environment
  | Environment.mk store outer, name, v =>
    Environment.mk (store_insert store name v) outer

/-- `Environment::new`. -/
def Environment.empty : Environment := Environment.mk [] none

/-! ### Derived `Debug` renderings (`{:?}` in error messages)

Only `Integer`, `Boolean`, `Null` and `ReturnValue` renderings ever reach
an error message (the evaluator never constructs a `FunctionObject` or
`FunctionApplication`); those two arms below follow the derive shape but
print the store in list order, since `HashMap`'s debug order is
unspecified, and string escaping inside identifier names is not modelled.
No claim depends on either. -/

def string_debug (s : String) : String := "\"" ++ s ++ "\""

mutual
def expr_debug : Expression → String
  | Expression.EmptyExpression => "EmptyExpression"
  | Expression.Identifier name => "Identifier(" ++ string_debug name ++ ")"
  | Expression.IntegerLiteral i => "IntegerLiteral(" ++ toString i ++ ")"
  | Expression.Boolean b => "Boolean(" ++ (if b then "true" else "false") ++ ")"
  | Expression.PrefixExpression operator right =>
      "PrefixExpression \x7b operator: " ++ string_debug operator ++
        ", right: " ++ expr_debug right ++ " \x7d"
  | Expression.InfixExpression left operator right =>
      "InfixExpression \x7b left: " ++ expr_debug left ++ ", operator: " ++
        string_debug operator ++ ", right: " ++ expr_debug right ++ " \x7d"
  | Expression.IfExpression condition consequence alternative =>
      "IfExpression \x7b condition: " ++ expr_debug condition ++
        ", consequence: " ++ stmt_debug consequence ++ ", alternative: " ++
        (match alternative with
          | some alt => "Some(" ++ stmt_debug alt ++ ")"
          | none => "None") ++ " \x7d"
  | Expression.FunctionLiteral parameters body =>
      "FunctionLiteral \x7b parameters: [" ++ expr_list_debug parameters ++
        "], body: " ++ stmt_debug body ++ " \x7d"
  | Expression.CallExpression function arguments =>
      "CallExpression \x7b function: " ++ expr_debug function ++
        ", arguments: [" ++ expr_list_debug arguments ++ "] \x7d"

def expr_list_debug : List Expression → String
  | [] => ""
  | [e] => expr_debug e
  | e :: rest => expr_debug e ++ ", " ++ expr_list_debug rest

def stmt_debug : Statement → String
  | Statement.EmptyStatement => "EmptyStatement"
  | Statement.LetStatement name value =>
      "LetStatement \x7b name: " ++ string_debug name ++ ", value: " ++
        expr_debug value ++ " \x7d"
  | Statement.ReturnStatement e => "ReturnStatement(" ++ expr_debug e ++ ")"
  | Statement.ExpressionStatement e =>
      "ExpressionStatement(" ++ expr_debug e ++ ")"
  | Statement.BlockStatement statements =>
      "BlockStatement \x7b statements: [" ++ stmt_list_debug statements ++
        "] \x7d"

def stmt_list_debug : List Statement → String
  | [] => ""
  | [s] => stmt_debug s
  | s :: rest => stmt_debug s ++ ", " ++ stmt_list_debug rest
end

mutual
def obj_debug : Object → String
  | Object.Integer i => "Integer(" ++ toString i ++ ")"
  | Object.Boolean b => "Boolean(" ++ (if b then "true" else "false") ++ ")"
  | Object.Null => "Null"
  | Object.ReturnValue o => "ReturnValue(" ++ obj_debug o ++ ")"
  | Object.FunctionObject parameters body env =>
      "FunctionObject \x7b parameters: [" ++ expr_list_debug parameters ++
        "], body: " ++ stmt_debug body ++ ", env: " ++ env_debug env ++ " \x7d"
  | Object.FunctionApplication function arguments =>
      "FunctionApplication \x7b function: " ++ obj_debug function ++
        ", arguments: [" ++ obj_list_debug arguments ++ "] \x7d"

def obj_list_debug : List Object → String
  | [] => ""
  | [o] => obj_debug o
  | o :: rest => obj_debug o ++ ", " ++ obj_list_debug rest

def store_debug : List (String × Object) → String
  | [] => ""
  | [(k, v)] => string_debug k ++ ": " ++ obj_debug v
  | (k, v) :: rest => string_debug k ++ ": " ++ obj_debug v ++ ", " ++
      store_debug rest

def env_debug : Environment → String
  | Environment.mk store outer =>
      "Environment \x7b store: \x7b" ++ store_debug store ++ "\x7d, outer: " ++
        (match outer with
          | some out => "Some(" ++ env_debug out ++ ")"
          | none => "None") ++ " \x7d"
end

/-! ## Evaluator (`evaluator.rs`) -/

/-- The outcome of an evaluation step: an `anyhow` success or failure, or
a Rust panic (`crash`), which aborts the process rather than returning. -/
inductive RRes (α : Type) where
  | ok (a : α)
  | err (msg : String)
  | crash (msg : String)

/-- Wrap into the signed 64-bit range, the release-profile behaviour of
`i64` addition, subtraction, multiplication and negation. -/
def i64wrap (z : Int) : Int := (z + 2 ^ 63) % 2 ^ 64 - 2 ^ 63

/-- `Object::cast_to_boolean`. -/
def cast_to_boolean : Object → RRes Object
  | Object.Integer i => RRes.ok (Object.Boolean (i ≠ 0))
  | Object.Boolean b => RRes.ok (Object.Boolean b)
  | Object.Null => RRes.ok (Object.Boolean false)
  | Object.ReturnValue obj => cast_to_boolean obj
  | o => RRes.err ("cannot cast " ++ obj_debug o ++ " to boolean")

/-- `eval_bang_prefix_expression`.  The Rust function recurses on
`right.cast_to_boolean()?` for every non-`Boolean` operand; since
`cast_to_boolean` only ever succeeds with a `Boolean`, that recursion
takes exactly one step, unfolded here (`cast_to_boolean_ok_shape` below
proves the last arm unreachable). -/
def eval_bang_prefix_expression (right : Object) : RRes Object :=
  match right with
  | Object.Boolean b => RRes.ok (Object.Boolean (!b))
  | right =>
    match cast_to_boolean right with
    | RRes.ok (Object.Boolean b) => RRes.ok (Object.Boolean (!b))
    | RRes.ok _ => RRes.crash "unreachable: cast_to_boolean returned non-boolean"
    | RRes.err e => RRes.err e
    | RRes.crash e => RRes.crash e

theorem cast_to_boolean_ok_shape :
    ∀ (o : Object) (r : Object), cast_to_boolean o = RRes.ok r →
      ∃ b, r = Object.Boolean b
  | Object.Integer _, _, h => by cases h; exact ⟨_, rfl⟩
  | Object.Boolean _, _, h => by cases h; exact ⟨_, rfl⟩
  | Object.Null, _, h => by cases h; exact ⟨_, rfl⟩
  | Object.ReturnValue o, r, h => cast_to_boolean_ok_shape o r h
  | Object.FunctionObject _ _ _, _, h => by simp [cast_to_boolean] at h
  | Object.FunctionApplication _ _, _, h => by simp [cast_to_boolean] at h

/-- `eval_minus_prefix_operator_expression`. -/
def eval_minus_prefix_operator_expression (right : Object) : RRes Object :=
  match right with
  | Object.Integer i => RRes.ok (Object.Integer (i64wrap (- i)))
  | r => RRes.err ("cannot use \x27-\x27 operator on " ++ obj_debug r)

/-- `eval_infix_expression`.  Integer division mirrors Rust `/` on `i64`:
truncation toward zero, with the two aborting cases (`/ 0` and
`i64::MIN / -1`) as panics. -/
def eval_infix_expression (operator : String) (left right : Object) :
    RRes Object :=
  match left, right with
  | Object.Integer l, Object.Integer r =>
    match operator with
    | "+" => RRes.ok (Object.Integer (i64wrap (l + r)))
    | "-" => RRes.ok (Object.Integer (i64wrap (l - r)))
    | "*" => RRes.ok (Object.Integer (i64wrap (l * r)))
    | "/" =>
      if r = 0 then RRes.crash "attempt to divide by zero"
      else if l = - 2 ^ 63 ∧ r = - 1 then
        RRes.crash "attempt to divide with overflow"
      else RRes.ok (Object.Integer (Int.tdiv l r))
    | "<" => RRes.ok (Object.Boolean (l < r))
    | ">" => RRes.ok (Object.Boolean (l > r))
    | "==" => RRes.ok (Object.Boolean (l = r))
    | "!=" => RRes.ok (Object.Boolean (l ≠ r))
    | _ => RRes.err ("unknown operator: " ++ obj_debug (Object.Integer l) ++
        " " ++ operator ++ " " ++ obj_debug (Object.Integer r))
  | Object.Boolean l, Object.Boolean r =>
    match operator with
    | "==" => RRes.ok (Object.Boolean (l = r))
    | "!=" => RRes.ok (Object.Boolean (l ≠ r))
    | _ => RRes.err ("unknown operator: " ++ obj_debug (Object.Boolean l) ++
        " " ++ operator ++ " " ++ obj_debug (Object.Boolean r))
  | Object.Null, Object.Null =>
    match operator with
    | "==" => RRes.ok (Object.Boolean true)
    | "!=" => RRes.ok (Object.Boolean false)
    | _ => RRes.err ("unknown operator: Null " ++ operator ++ " Null")
  | left, right =>
    RRes.err ("type mismatch: " ++ obj_debug left ++ " " ++ operator ++ " " ++
      obj_debug right)

mutual
/-- `eval_statement`.  The environment is threaded explicitly in place of
the Rust `&mut` reference. -/
def eval_statement : Statement → Environment → RRes (Object × Environment)
  | Statement.ExpressionStatement e, env => eval_expression e env
  | Statement.BlockStatement statements, env =>
      eval_statement_list statements Object.Null env
  | Statement.ReturnStatement e, env =>
    match eval_expression e env with
    | RRes.ok (v, env1) => RRes.ok (Object.ReturnValue v, env1)
    | RRes.err e => RRes.err e
    | RRes.crash e => RRes.crash e
  | Statement.LetStatement name value, env =>
    match eval_expression value env with
    | RRes.ok (v, env1) => RRes.ok (Object.Null, env1.set name v)
    | RRes.err e => RRes.err e
    | RRes.crash e => RRes.crash e
  | _, env => RRes.ok (Object.Null, env)

/-- The statement loop in the `BlockStatement` arm of `eval_statement`:
`result` starts as `Null`, each statement overwrites it, and a
`ReturnValue` result stops the loop and is returned unchanged. -/
def eval_statement_list :
    List Statement → Object → Environment → RRes (Object × Environment)
  | [], result, env => RRes.ok (result, env)
  | s :: rest, _, env =>
    match eval_statement s env with
    | RRes.ok (Object.ReturnValue v, env1) =>
        RRes.ok (Object.ReturnValue v, env1)
    | RRes.ok (r, env1) => eval_statement_list rest r env1
    | RRes.err e => RRes.err e
    | RRes.crash e => RRes.crash e

/-- `eval_expression`. -/
def eval_expression : Expression → Environment → RRes (Object × Environment)
  | Expression.IntegerLiteral i, env => RRes.ok (Object.Integer i, env)
  | Expression.Boolean b, env => RRes.ok (Object.Boolean b, env)
  | Expression.Identifier name, env =>
    match env.get name with
    | some v => RRes.ok (v, env)
    | none => RRes.err ("identifier not found: " ++ name)
  | Expression.PrefixExpression operator right, env =>
    match eval_expression right env with
    | RRes.ok (r, env1) =>
      match operator with
      | "!" =>
        (match eval_bang_prefix_expression r with
          | RRes.ok v => RRes.ok (v, env1)
          | RRes.err e => RRes.err e
          | RRes.crash e => RRes.crash e)
      | "-" =>
        (match eval_minus_prefix_operator_expression r with
          | RRes.ok v => RRes.ok (v, env1)
          | RRes.err e => RRes.err e
          | RRes.crash e => RRes.crash e)
      | _ => RRes.ok (Object.Null, env1)
    | RRes.err e => RRes.err e
    | RRes.crash e => RRes.crash e
  | Expression.InfixExpression left operator right, env =>
    match eval_expression left env with
    | RRes.ok (l, env1) =>
      (match eval_expression right env1 with
        | RRes.ok (r, env2) =>
          (match eval_infix_expression operator l r with
            | RRes.ok v => RRes.ok (v, env2)
            | RRes.err e => RRes.err e
            | RRes.crash e => RRes.crash e)
        | RRes.err e => RRes.err e
        | RRes.crash e => RRes.crash e)
    | RRes.err e => RRes.err e
    | RRes.crash e => RRes.crash e
  | Expression.IfExpression condition consequence alternative, env =>
    match eval_expression condition env with
    | RRes.ok (c, env1) =>
      (match cast_to_boolean c with
        | RRes.ok (Object.Boolean true) => eval_statement consequence env1
        | RRes.ok _ =>
          (match alternative with
            | some alt => eval_statement alt env1
            | none => RRes.ok (Object.Null, env1))
        | RRes.err e => RRes.err e
        | RRes.crash e => RRes.crash e)
    | RRes.err e => RRes.err e
    | RRes.crash e => RRes.crash e
  | _, env => RRes.ok (Object.Null, env)
end

/-- The statement loop of `eval_program`: like block evaluation, but a
`ReturnValue` result is unwrapped one level (`return Ok(*val)`) and ends
the program. -/
def eval_program_loop : List Statement → Object → Environment → RRes Object
  | [], result, _ => RRes.ok result
  | s :: rest, _, env =>
    match eval_statement s env with
    | RRes.ok (Object.ReturnValue v, _) => RRes.ok v
    | RRes.ok (r, env1) => eval_program_loop rest r env1
    | RRes.err e => RRes.err e
    | RRes.crash e => RRes.crash e

/-- `eval_program`: evaluate the statements in a fresh environment. -/
def eval_program (p : Program) : RRes Object :=
  eval_program_loop p.statements Object.Null Environment.empty

/-- The whole pipeline: lex, parse, evaluate.  A parse failure surfaces
as the parse error (`RRes.err`), matching the `anyhow` error flow of the
crate. -/
def evaluate (src : String) : RRes Object :=
  match parse_program src with
  | Except.ok p => eval_program p
  | Except.error e => RRes.err e

/-! ## Helper notions and lemmas for the claim theorems -/

/-- Constructor tag of a runtime value — the "runtime kind" of the claim
language. -/
def obj_kind : Object → Nat
  | Object.Integer _ => 0
  | Object.Boolean _ => 1
  | Object.Null => 2
  | Object.ReturnValue _ => 3
  | Object.FunctionObject _ _ _ => 4
  | Object.FunctionApplication _ _ => 5

def is_return_value : Object → Bool
  | Object.ReturnValue _ => true
  | _ => false

/-- If block-list evaluation from a non-return accumulator ends in a
return-wrapped value, appending further statements changes nothing: the
loop stopped at the wrapped value and never reaches them. -/
theorem eval_statement_list_append_of_return (l1 : List Statement) :
    ∀ (l2 : List Statement) (r : Object) (env env' : Environment) (v : Object),
      is_return_value r = false →
      eval_statement_list l1 r env = RRes.ok (Object.ReturnValue v, env') →
      eval_statement_list (l1 ++ l2) r env =
        RRes.ok (Object.ReturnValue v, env') := by
  induction l1 with
  | nil =>
    intro l2 r env env' v hr h
    simp only [eval_statement_list] at h
    cases h
    simp [is_return_value] at hr
  | cons s rest ih =>
    intro l2 r env env' v hr h
    simp only [List.cons_append, eval_statement_list] at h ⊢
    cases hs : eval_statement s env with
    | ok p =>
      obtain ⟨r1, env1⟩ := p
      rw [hs] at h
      cases r1 with
      | ReturnValue v1 => exact h
      | Integer i => exact ih l2 _ env1 env' v rfl h
      | Boolean b => exact ih l2 _ env1 env' v rfl h
      | Null => exact ih l2 _ env1 env' v rfl h
      | FunctionObject a b c => exact ih l2 _ env1 env' v rfl h
      | FunctionApplication a b => exact ih l2 _ env1 env' v rfl h
    | err e => rw [hs] at h; cases h
    | crash e => rw [hs] at h; cases h

/-- Errors (and crashes) of block-list evaluation also abort the extended
list: nothing after the failing statement is evaluated. -/
theorem eval_statement_list_append_of_err (l1 : List Statement) :
    ∀ (l2 : List Statement) (r : Object) (env : Environment) (e : String),
      eval_statement_list l1 r env = RRes.err e →
      eval_statement_list (l1 ++ l2) r env = RRes.err e := by
  induction l1 with
  | nil =>
    intro l2 r env e h
    simp only [eval_statement_list] at h
    exact RRes.noConfusion h
  | cons s rest ih =>
    intro l2 r env e h
    simp only [List.cons_append, eval_statement_list] at h ⊢
    cases hs : eval_statement s env with
    | ok p =>
      obtain ⟨r1, env1⟩ := p
      rw [hs] at h
      cases r1 with
      | ReturnValue v1 => simp at h
      | Integer i => exact ih l2 _ env1 e h
      | Boolean b => exact ih l2 _ env1 e h
      | Null => exact ih l2 _ env1 e h
      | FunctionObject a b c => exact ih l2 _ env1 e h
      | FunctionApplication a b => exact ih l2 _ env1 e h
    | err e1 => rw [hs] at h; exact h
    | crash e1 => rw [hs] at h; cases h

/-- The program-level loop is the block-level loop with exactly one
`ReturnValue` layer unwrapped (provided the running result is not itself
a wrapper, which `eval_program` guarantees by starting from `Null`). -/
theorem eval_program_loop_eq_statement_list (l : List Statement) :
    ∀ (r : Object) (env : Environment), is_return_value r = false →
      eval_program_loop l r env =
        (match eval_statement_list l r env with
          | RRes.ok (Object.ReturnValue v, _) => RRes.ok v
          | RRes.ok (r', _) => RRes.ok r'
          | RRes.err e => RRes.err e
          | RRes.crash e => RRes.crash e) := by
  induction l with
  | nil =>
    intro r env hr
    cases r <;> simp_all [eval_program_loop, eval_statement_list, is_return_value]
  | cons s rest ih =>
    intro r env hr
    simp only [eval_program_loop, eval_statement_list]
    cases hs : eval_statement s env with
    | ok p =>
      obtain ⟨r1, env1⟩ := p
      cases r1 with
      | ReturnValue v1 => rfl
      | Integer i => exact ih _ env1 rfl
      | Boolean b => exact ih _ env1 rfl
      | Null => exact ih _ env1 rfl
      | FunctionObject a b c => exact ih _ env1 rfl
      | FunctionApplication a b => exact ih _ env1 rfl
    | err e => rfl
    | crash e => rfl

theorem store_get_filter_ne (l : List (String × Object)) (n m : String)
    (h : m ≠ n) :
    store_get (l.filter (fun p => p.1 ≠ n)) m = store_get l m := by
  induction l with
  | nil => rfl
  | cons p rest ih =>
    obtain ⟨k, w⟩ := p
    by_cases hk : k = n
    · subst hk
      rw [List.filter_cons_of_neg (by simp)]
      rw [ih]
      simp only [store_get]
      rw [if_neg (fun he : k = m => h (he ▸ rfl))]
    · rw [List.filter_cons_of_pos (by simp [hk])]
      simp only [store_get]
      rw [ih]

/-- `store_get` after `store_insert` at a different key is unchanged. -/
theorem store_get_insert_ne (l : List (String × Object)) (n m : String)
    (v : Object) (h : m ≠ n) :
    store_get (store_insert l n v) m = store_get l m := by
  simp only [store_insert, store_get]
  rw [if_neg (fun he : n = m => h (he ▸ rfl))]
  exact store_get_filter_ne l n m h

/-- The defining equation of `Environment.get` on a constructor, in a
shape usable for rewriting. -/
theorem environment_get_mk (store : List (String × Object))
    (outer : Option Environment) (name : String) :
    Environment.get (Environment.mk store outer) name =
      (match store_get store name with
        | some obj => some obj
        | none =>
          match outer with
          | some out => out.get name
          | none => none) := by
  cases outer with
  | none => rw [Environment.get]
  | some out => rw [Environment.get]

/-- Lookup through the whole chain is unchanged by a `set` of a different
name. -/
theorem environment_get_set_ne (env : Environment) (n m : String) (v : Object)
    (h : m ≠ n) : (env.set n v).get m = env.get m := by
  cases env with
  | mk store outer =>
    simp only [Environment.set]
    rw [environment_get_mk, environment_get_mk,
      store_get_insert_ne store n m v h]

/-! ## Reference semantics for arithmetic source texts (claim C1)

The claim compares the pipeline against "standard signed-integer
precedence (product over sum) and left associativity".  The reference
below implements the textbook grammar

    Factor := INT | "-" Factor | "(" Sum ")"
    Term   := Factor (("*" | "/") Factor)*      (left-to-right)
    Sum    := Term (("+" | "-") Term)*          (left-to-right)

directly as a recursive-descent value computation over the token list,
with signed-64-bit (wrapping) arithmetic; it is undefined (`none`)
exactly where Rust `i64` division aborts, and on any token outside the
arithmetic alphabet of the claim.  It shares with the parser only the
token model and the literal-to-`i64` conversion. -/

/-- One-step unfolding lemmas for the evaluator, proved by `rfl`; the
evaluator's mutual recursion is structural, so each constructor case
reduces definitionally. -/
theorem eval_expression_int_eq (i : Int) (env : Environment) :
    eval_expression (Expression.IntegerLiteral i) env =
      RRes.ok (Object.Integer i, env) := rfl

theorem eval_expression_prefix_eq (operator : String) (right : Expression)
    (env : Environment) :
    eval_expression (Expression.PrefixExpression operator right) env =
      (match eval_expression right env with
        | RRes.ok (r, env1) =>
          (match operator with
            | "!" =>
              (match eval_bang_prefix_expression r with
                | RRes.ok v => RRes.ok (v, env1)
                | RRes.err e => RRes.err e
                | RRes.crash e => RRes.crash e)
            | "-" =>
              (match eval_minus_prefix_operator_expression r with
                | RRes.ok v => RRes.ok (v, env1)
                | RRes.err e => RRes.err e
                | RRes.crash e => RRes.crash e)
            | _ => RRes.ok (Object.Null, env1))
        | RRes.err e => RRes.err e
        | RRes.crash e => RRes.crash e) := rfl

theorem eval_expression_infix_eq (left : Expression) (operator : String)
    (right : Expression) (env : Environment) :
    eval_expression (Expression.InfixExpression left operator right) env =
      (match eval_expression left env with
        | RRes.ok (l, env1) =>
          (match eval_expression right env1 with
            | RRes.ok (r, env2) =>
              (match eval_infix_expression operator l r with
                | RRes.ok v => RRes.ok (v, env2)
                | RRes.err e => RRes.err e
                | RRes.crash e => RRes.crash e)
            | RRes.err e => RRes.err e
            | RRes.crash e => RRes.crash e)
        | RRes.err e => RRes.err e
        | RRes.crash e => RRes.crash e) := rfl

/-- The value of a pure arithmetic expression tree under signed-64-bit
semantics: defined on integer literals, prefix minus and the four binary
operators, undefined elsewhere and where division would abort. -/
def arith_value : Expression → Option Int
  | Expression.IntegerLiteral i => some i
  | Expression.PrefixExpression operator r =>
    if operator = "-" then
      match arith_value r with
      | some v => some (i64wrap (- v))
      | none => none
    else none
  | Expression.InfixExpression l operator r =>
    match arith_value l, arith_value r with
    | some a, some b =>
      if operator = "+" then some (i64wrap (a + b))
      else if operator = "-" then some (i64wrap (a - b))
      else if operator = "*" then some (i64wrap (a * b))
      else if operator = "/" then
        (if b = 0 ∨ (a = - 2 ^ 63 ∧ b = - 1) then none
          else some (Int.tdiv a b))
      else none
    | _, _ => none
  | _ => none

/-- An expression with a defined arithmetic value evaluates to exactly
that integer, in any environment, leaving the environment unchanged. -/
theorem arith_value_eval :
    ∀ (e : Expression) (v : Int), arith_value e = some v →
      ∀ env : Environment, eval_expression e env =
        RRes.ok (Object.Integer v, env)
  | Expression.IntegerLiteral i, v, h, env => by
    simp only [arith_value, Option.some_inj] at h
    subst h
    rfl
  | Expression.PrefixExpression operator r, v, h, env => by
    simp only [arith_value] at h
    split at h
    case isTrue hop =>
      subst hop
      cases hr : arith_value r with
      | none => rw [hr] at h; cases h
      | some w =>
        rw [hr] at h
        cases h
        rw [eval_expression_prefix_eq, arith_value_eval r w hr env]
        rfl
    case isFalse hop => cases h
  | Expression.InfixExpression l operator r, v, h, env => by
    simp only [arith_value] at h
    cases hl : arith_value l with
    | none => rw [hl] at h; cases h
    | some a =>
      cases hr : arith_value r with
      | none => rw [hl, hr] at h; cases h
      | some b =>
        rw [hl, hr] at h
        dsimp only at h
        rw [eval_expression_infix_eq]
        simp only [arith_value_eval l a hl env, arith_value_eval r b hr env]
        by_cases hp : operator = "+"
        · subst hp
          rw [if_pos rfl] at h
          cases h
          rfl
        · rw [if_neg hp] at h
          by_cases hm : operator = "-"
          · subst hm
            rw [if_pos rfl] at h
            cases h
            rfl
          · rw [if_neg hm] at h
            by_cases ht : operator = "*"
            · subst ht
              rw [if_pos rfl] at h
              cases h
              rfl
            · rw [if_neg ht] at h
              by_cases hd : operator = "/"
              · subst hd
                rw [if_pos rfl] at h
                split at h
                next hz => cases h
                next hz =>
                  cases h
                  push_neg at hz
                  obtain ⟨hz0, hz1⟩ := hz
                  simp only [eval_infix_expression]
                  rw [if_neg hz0, if_neg (fun hc => hz1 hc.1 hc.2)]
              · rw [if_neg hd] at h
                cases h

mutual
/-- `Factor := INT | "-" Factor | "(" Sum ")"`. -/
def ref_factor : Nat → List Token → Option (Int × List Token)
  | 0, _ => none
  | fuel + 1, ts =>
    match ts with
    | ⟨TokenType.INT, lit⟩ :: rest =>
      (match i64_from_str lit with
        | Except.ok v => some (v, rest)
        | Except.error _ => none)
    | ⟨TokenType.MINUS, _⟩ :: rest =>
      (match ref_factor fuel rest with
        | some (v, rest1) => some (i64wrap (- v), rest1)
        | none => none)
    | ⟨TokenType.LPAREN, _⟩ :: rest =>
      (match ref_sum fuel rest with
        | some (v, rest1) =>
          (match rest1 with
            | ⟨TokenType.RPAREN, _⟩ :: rest2 => some (v, rest2)
            | _ => none)
        | none => none)
    | _ => none

/-- `Term := Factor (("*" | "/") Factor)*`, left-to-right. -/
def ref_term : Nat → List Token → Option (Int × List Token)
  | 0, _ => none
  | fuel + 1, ts =>
    match ref_factor fuel ts with
    | some (v, rest) => ref_term_loop fuel v rest
    | none => none

def ref_term_loop : Nat → Int → List Token → Option (Int × List Token)
  | 0, _, _ => none
  | fuel + 1, acc, ts =>
    match ts with
    | ⟨TokenType.ASTERISK, _⟩ :: rest =>
      (match ref_factor fuel rest with
        | some (v, rest1) => ref_term_loop fuel (i64wrap (acc * v)) rest1
        | none => none)
    | ⟨TokenType.SLASH, _⟩ :: rest =>
      (match ref_factor fuel rest with
        | some (v, rest1) =>
          if v = 0 ∨ (acc = - 2 ^ 63 ∧ v = - 1) then none
          else ref_term_loop fuel (Int.tdiv acc v) rest1
        | none => none)
    | _ => some (acc, ts)

/-- `Sum := Term (("+" | "-") Term)*`, left-to-right. -/
def ref_sum : Nat → List Token → Option (Int × List Token)
  | 0, _ => none
  | fuel + 1, ts =>
    match ref_term fuel ts with
    | some (v, rest) => ref_sum_loop fuel v rest
    | none => none

def ref_sum_loop : Nat → Int → List Token → Option (Int × List Token)
  | 0, _, _ => none
  | fuel + 1, acc, ts =>
    match ts with
    | ⟨TokenType.PLUS, _⟩ :: rest =>
      (match ref_term fuel rest with
        | some (v, rest1) => ref_sum_loop fuel (i64wrap (acc + v)) rest1
        | none => none)
    | ⟨TokenType.MINUS, _⟩ :: rest =>
      (match ref_term fuel rest with
        | some (v, rest1) => ref_sum_loop fuel (i64wrap (acc - v)) rest1
        | none => none)
    | _ => some (acc, ts)
end

/-- The standard-grammar value of a token string: a full `Sum` consuming
every token.  The fuel is ample: the reference spends at most three units
per consumed token. -/
def ref_arith_toks (ts : List Token) : Option Int :=
  match ref_sum (4 * ts.length + 4) ts with
  | some (v, []) => some v
  | _ => none

/-- The standard signed-64-bit value of an arithmetic source text, where
defined. -/
def ref_arith (src : String) : Option Int := ref_arith_toks (lex_string src)

/-! Definitional unfolding equations of the reference functions, stated at
constructor-headed inputs so they hold by `rfl`. -/

theorem ref_factor_int (fuel : Nat) (lit : String) (rest : List Token) :
    ref_factor (fuel + 1) (⟨TokenType.INT, lit⟩ :: rest) =
      (match i64_from_str lit with
        | Except.ok v => some (v, rest)
        | Except.error _ => none) := rfl

theorem ref_factor_minus (fuel : Nat) (lit : String) (rest : List Token) :
    ref_factor (fuel + 1) (⟨TokenType.MINUS, lit⟩ :: rest) =
      (match ref_factor fuel rest with
        | some (v, rest1) => some (i64wrap (- v), rest1)
        | none => none) := rfl

theorem ref_factor_lparen (fuel : Nat) (lit : String) (rest : List Token) :
    ref_factor (fuel + 1) (⟨TokenType.LPAREN, lit⟩ :: rest) =
      (match ref_sum fuel rest with
        | some (v, rest1) =>
          (match rest1 with
            | ⟨TokenType.RPAREN, _⟩ :: rest2 => some (v, rest2)
            | _ => none)
        | none => none) := rfl

theorem ref_term_succ (fuel : Nat) (ts : List Token) :
    ref_term (fuel + 1) ts =
      (match ref_factor fuel ts with
        | some (v, rest) => ref_term_loop fuel v rest
        | none => none) := rfl

theorem ref_term_loop_ast (fuel : Nat) (acc : Int) (lit : String)
    (rest : List Token) :
    ref_term_loop (fuel + 1) acc (⟨TokenType.ASTERISK, lit⟩ :: rest) =
      (match ref_factor fuel rest with
        | some (v, rest1) => ref_term_loop fuel (i64wrap (acc * v)) rest1
        | none => none) := rfl

theorem ref_term_loop_slash (fuel : Nat) (acc : Int) (lit : String)
    (rest : List Token) :
    ref_term_loop (fuel + 1) acc (⟨TokenType.SLASH, lit⟩ :: rest) =
      (match ref_factor fuel rest with
        | some (v, rest1) =>
          if v = 0 ∨ (acc = - 2 ^ 63 ∧ v = - 1) then none
          else ref_term_loop fuel (Int.tdiv acc v) rest1
        | none => none) := rfl

theorem ref_sum_succ (fuel : Nat) (ts : List Token) :
    ref_sum (fuel + 1) ts =
      (match ref_term fuel ts with
        | some (v, rest) => ref_sum_loop fuel v rest
        | none => none) := rfl

theorem ref_sum_loop_plus (fuel : Nat) (acc : Int) (lit : String)
    (rest : List Token) :
    ref_sum_loop (fuel + 1) acc (⟨TokenType.PLUS, lit⟩ :: rest) =
      (match ref_term fuel rest with
        | some (v, rest1) => ref_sum_loop fuel (i64wrap (acc + v)) rest1
        | none => none) := rfl

theorem ref_sum_loop_minus (fuel : Nat) (acc : Int) (lit : String)
    (rest : List Token) :
    ref_sum_loop (fuel + 1) acc (⟨TokenType.MINUS, lit⟩ :: rest) =
      (match ref_term fuel rest with
        | some (v, rest1) => ref_sum_loop fuel (i64wrap (acc - v)) rest1
        | none => none) := rfl

/-- Token counts of the reference functions: a factor, term or sum
consumes at least one token, the loops consume none or more. -/
theorem ref_consumes :
    ∀ fuel,
      (∀ ts v rest, ref_factor fuel ts = some (v, rest) →
        rest.length < ts.length) ∧
      (∀ ts v rest, ref_term fuel ts = some (v, rest) →
        rest.length < ts.length) ∧
      (∀ acc ts v rest, ref_term_loop fuel acc ts = some (v, rest) →
        rest.length ≤ ts.length) ∧
      (∀ ts v rest, ref_sum fuel ts = some (v, rest) →
        rest.length < ts.length) ∧
      (∀ acc ts v rest, ref_sum_loop fuel acc ts = some (v, rest) →
        rest.length ≤ ts.length) := by
  intro fuel
  induction fuel with
  | zero =>
    refine ⟨?_, ?_, ?_, ?_, ?_⟩
    · intro _ _ _ h; cases h
    · intro _ _ _ h; cases h
    · intro _ _ _ _ h; cases h
    · intro _ _ _ h; cases h
    · intro _ _ _ _ h; cases h
  | succ fuel ih =>
    obtain ⟨ihF, ihT, ihTL, ihS, ihSL⟩ := ih
    refine ⟨?_, ?_, ?_, ?_, ?_⟩
    · intro ts v rest h
      cases ts with
      | nil => cases h
      | cons t rest2 =>
        obtain ⟨tt, lit⟩ := t
        cases tt
        case INT =>
          rw [ref_factor_int] at h
          split at h
          · cases h; simp
          · cases h
        case MINUS =>
          rw [ref_factor_minus] at h
          split at h
          next v1 rest1 hf =>
            cases h
            have := ihF _ _ _ hf
            simp only [List.length_cons]
            omega
          next => cases h
        case LPAREN =>
          rw [ref_factor_lparen] at h
          split at h
          next v1 rest1 hs =>
            split at h
            next rest3 =>
              cases h
              have := ihS _ _ _ hs
              simp only [List.length_cons] at *
              omega
            next => cases h
          next => cases h
        all_goals cases h
    · intro ts v rest h
      rw [ref_term_succ] at h
      split at h
      next v1 rest1 hf =>
        have h1 := ihF _ _ _ hf
        have h2 := ihTL _ _ _ _ h
        omega
      next => cases h
    · intro acc ts v rest h
      cases ts with
      | nil => cases h; simp
      | cons t rest2 =>
        obtain ⟨tt, lit⟩ := t
        cases tt
        case ASTERISK =>
          rw [ref_term_loop_ast] at h
          split at h
          next v1 rest1 hf =>
            have h1 := ihF _ _ _ hf
            have h2 := ihTL _ _ _ _ h
            simp only [List.length_cons] at *
            omega
          next => cases h
        case SLASH =>
          rw [ref_term_loop_slash] at h
          split at h
          next v1 rest1 hf =>
            split at h
            · cases h
            · have h1 := ihF _ _ _ hf
              have h2 := ihTL _ _ _ _ h
              simp only [List.length_cons] at *
              omega
          next => cases h
        all_goals (cases h; simp)
    · intro ts v rest h
      rw [ref_sum_succ] at h
      split at h
      next v1 rest1 hf =>
        have h1 := ihT _ _ _ hf
        have h2 := ihSL _ _ _ _ h
        omega
      next => cases h
    · intro acc ts v rest h
      cases ts with
      | nil => cases h; simp
      | cons t rest2 =>
        obtain ⟨tt, lit⟩ := t
        cases tt
        case PLUS =>
          rw [ref_sum_loop_plus] at h
          split at h
          next v1 rest1 hf =>
            have h1 := ihT _ _ _ hf
            have h2 := ihSL _ _ _ _ h
            simp only [List.length_cons] at *
            omega
          next => cases h
        case MINUS =>
          rw [ref_sum_loop_minus] at h
          split at h
          next v1 rest1 hf =>
            have h1 := ihT _ _ _ hf
            have h2 := ihSL _ _ _ _ h
            simp only [List.length_cons] at *
            omega
          next => cases h
        all_goals (cases h; simp)

/-- A successful reference factor starts at an `INT`, `MINUS` or `LPAREN`
token. -/
theorem ref_factor_head (fuel : Nat) (ts : List Token) (p : Int × List Token)
    (h : ref_factor fuel ts = some p) :
    (cur_tok ts).token_type = TokenType.INT ∨
    (cur_tok ts).token_type = TokenType.MINUS ∨
    (cur_tok ts).token_type = TokenType.LPAREN := by
  cases fuel with
  | zero => cases h
  | succ fuel =>
    cases ts with
    | nil => cases h
    | cons t rest2 =>
      obtain ⟨tt, lit⟩ := t
      cases tt <;> first
        | (left; rfl)
        | (right; left; rfl)
        | (right; right; rfl)
        | cases h

/-- The remainder of a reference term loop either is the input itself or
starts at the consumed `*`/`/` operator position, i.e. the loop stops
exactly when the head is no longer a product operator; in particular the
head of the input is `*`, `/`, or the loop returned it unchanged. -/
theorem ref_term_loop_head (fuel : Nat) (acc : Int) (ts : List Token)
    (v : Int) (rest : List Token) (h : ref_term_loop fuel acc ts = some (v, rest)) :
    ts = rest ∨ (cur_tok ts).token_type = TokenType.ASTERISK ∨
      (cur_tok ts).token_type = TokenType.SLASH := by
  cases fuel with
  | zero => cases h
  | succ fuel =>
    cases ts with
    | nil => cases h; left; rfl
    | cons t rest2 =>
      obtain ⟨tt, lit⟩ := t
      cases tt <;> first
        | (right; left; rfl)
        | (right; right; rfl)
        | (cases h; left; rfl)

/-- Analogue of `ref_term_loop_head` for the sum loop. -/
theorem ref_sum_loop_head (fuel : Nat) (acc : Int) (ts : List Token)
    (v : Int) (rest : List Token) (h : ref_sum_loop fuel acc ts = some (v, rest)) :
    ts = rest ∨ (cur_tok ts).token_type = TokenType.PLUS ∨
      (cur_tok ts).token_type = TokenType.MINUS := by
  cases fuel with
  | zero => cases h
  | succ fuel =>
    cases ts with
    | nil => cases h; left; rfl
    | cons t rest2 =>
      obtain ⟨tt, lit⟩ := t
      cases tt <;> first
        | (right; left; rfl)
        | (right; right; rfl)
        | (cases h; left; rfl)

/-- The operator tokens the arithmetic fragment touches carry their
canonical literals (every token the lexer emits satisfies this; see
`lex_list_wf`). -/
def tok_wf (t : Token) : Bool :=
  match t.token_type with
  | TokenType.PLUS => t.literal == "+"
  | TokenType.MINUS => t.literal == "-"
  | TokenType.ASTERISK => t.literal == "*"
  | TokenType.SLASH => t.literal == "/"
  | _ => true

def toks_wf (ts : List Token) : Prop := ∀ t ∈ ts, tok_wf t = true

theorem toks_wf_tail {t : Token} {ts : List Token}
    (h : toks_wf (t :: ts)) : toks_wf ts :=
  fun x hx => h x (List.mem_cons_of_mem t hx)

theorem toks_wf_suffix {ts rest : List Token} (hs : rest <:+ ts)
    (h : toks_wf ts) : toks_wf rest :=
  fun x hx => h x (hs.subset hx)

theorem next_token_ops1_wf (c : Char) (rest : List Char) :
    ∀ p, next_token_ops1 c rest = some p → tok_wf p.1 = true := by
  unfold next_token_ops1
  repeat' split
  all_goals intro p hp
  all_goals first
    | exact (Option.noConfusion hp)
    | (cases hp; rfl)

theorem next_token_ops2_wf (c : Char) (rest : List Char) :
    ∀ p, next_token_ops2 c rest = some p → tok_wf p.1 = true := by
  unfold next_token_ops2
  repeat' split
  all_goals intro p hp
  all_goals first
    | exact (Option.noConfusion hp)
    | (cases hp; rfl)

theorem next_token_delims_wf (c : Char) (rest : List Char) :
    ∀ p, next_token_delims c rest = some p → tok_wf p.1 = true := by
  unfold next_token_delims
  repeat' split
  all_goals intro p hp
  all_goals first
    | exact (Option.noConfusion hp)
    | (cases hp; rfl)

theorem tok_wf_ident (s : String) :
    tok_wf ⟨lookup_ident_full s, s⟩ = true := by
  unfold lookup_ident_full
  repeat' split
  all_goals rfl

theorem next_token_core_wf (c : Char) (rest : List Char) :
    tok_wf (next_token_core c rest).1 = true := by
  unfold next_token_core
  split
  case _ p hp => exact next_token_ops1_wf c rest p hp
  split
  case _ p hp => exact next_token_ops2_wf c rest p hp
  split
  case _ p hp => exact next_token_delims_wf c rest p hp
  repeat' split
  all_goals first
    | rfl
    | exact tok_wf_ident _

theorem lex_fuel_wf (fuel : Nat) : ∀ l : List Char, toks_wf (lex_fuel fuel l) := by
  induction fuel with
  | zero => intro l t ht; cases ht
  | succ fuel ih =>
    intro l t ht
    rw [lex_fuel] at ht
    split at ht
    · cases ht
    next c rest heq =>
      cases ht with
      | head => exact next_token_core_wf c rest
      | tail _ hmem => exact ih _ t hmem

theorem lex_list_wf (l : List Char) : toks_wf (lex_list l) :=
  lex_fuel_wf _ l

/-- The remainders of all reference functions are suffixes of their
inputs (so token well-formedness propagates). -/
theorem ref_suffix :
    ∀ fuel,
      (∀ ts v rest, ref_factor fuel ts = some (v, rest) → rest <:+ ts) ∧
      (∀ ts v rest, ref_term fuel ts = some (v, rest) → rest <:+ ts) ∧
      (∀ acc ts v rest, ref_term_loop fuel acc ts = some (v, rest) →
        rest <:+ ts) ∧
      (∀ ts v rest, ref_sum fuel ts = some (v, rest) → rest <:+ ts) ∧
      (∀ acc ts v rest, ref_sum_loop fuel acc ts = some (v, rest) →
        rest <:+ ts) := by
  intro fuel
  induction fuel with
  | zero =>
    refine ⟨?_, ?_, ?_, ?_, ?_⟩
    · intro _ _ _ h; cases h
    · intro _ _ _ h; cases h
    · intro _ _ _ _ h; cases h
    · intro _ _ _ h; cases h
    · intro _ _ _ _ h; cases h
  | succ fuel ih =>
    obtain ⟨ihF, ihT, ihTL, ihS, ihSL⟩ := ih
    have tail_suf : ∀ (t : Token) (l : List Token), l <:+ t :: l :=
      fun t l => List.suffix_cons t l
    refine ⟨?_, ?_, ?_, ?_, ?_⟩
    · intro ts v rest h
      cases ts with
      | nil => cases h
      | cons t rest2 =>
        obtain ⟨tt, lit⟩ := t
        cases tt
        case INT =>
          rw [ref_factor_int] at h
          split at h
          · cases h; exact tail_suf _ _
          · cases h
        case MINUS =>
          rw [ref_factor_minus] at h
          split at h
          next v1 rest1 hf =>
            cases h
            exact (ihF _ _ _ hf).trans (tail_suf _ _)
          next => cases h
        case LPAREN =>
          rw [ref_factor_lparen] at h
          split at h
          next v1 rest1 hs =>
            split at h
            next rest3 =>
              cases h
              exact ((tail_suf _ _).trans (ihS _ _ _ hs)).trans (tail_suf _ _)
            next => cases h
          next => cases h
        all_goals cases h
    · intro ts v rest h
      rw [ref_term_succ] at h
      split at h
      next v1 rest1 hf => exact (ihTL _ _ _ _ h).trans (ihF _ _ _ hf)
      next => cases h
    · intro acc ts v rest h
      cases ts with
      | nil => cases h; exact List.suffix_refl _
      | cons t rest2 =>
        obtain ⟨tt, lit⟩ := t
        cases tt
        case ASTERISK =>
          rw [ref_term_loop_ast] at h
          split at h
          next v1 rest1 hf =>
            exact ((ihTL _ _ _ _ h).trans (ihF _ _ _ hf)).trans (tail_suf _ _)
          next => cases h
        case SLASH =>
          rw [ref_term_loop_slash] at h
          split at h
          next v1 rest1 hf =>
            split at h
            · cases h
            · exact ((ihTL _ _ _ _ h).trans (ihF _ _ _ hf)).trans
                (tail_suf _ _)
          next => cases h
        all_goals (cases h; exact List.suffix_refl _)
    · intro ts v rest h
      rw [ref_sum_succ] at h
      split at h
      next v1 rest1 hf => exact (ihSL _ _ _ _ h).trans (ihT _ _ _ hf)
      next => cases h
    · intro acc ts v rest h
      cases ts with
      | nil => cases h; exact List.suffix_refl _
      | cons t rest2 =>
        obtain ⟨tt, lit⟩ := t
        cases tt
        case PLUS =>
          rw [ref_sum_loop_plus] at h
          split at h
          next v1 rest1 hf =>
            exact ((ihSL _ _ _ _ h).trans (ihT _ _ _ hf)).trans (tail_suf _ _)
          next => cases h
        case MINUS =>
          rw [ref_sum_loop_minus] at h
          split at h
          next v1 rest1 hf =>
            exact ((ihSL _ _ _ _ h).trans (ihT _ _ _ hf)).trans (tail_suf _ _)
          next => cases h
        all_goals (cases h; exact List.suffix_refl _)

/-- The remainder of the reference term loop never starts with a `*` or
`/` token: the loop consumes them all. -/
theorem ref_term_loop_rest (fuel : Nat) :
    ∀ (acc : Int) (ts : List Token) (v : Int) (rest : List Token),
      ref_term_loop fuel acc ts = some (v, rest) →
      (cur_tok rest).token_type ≠ TokenType.ASTERISK ∧
      (cur_tok rest).token_type ≠ TokenType.SLASH := by
  induction fuel with
  | zero => intro _ _ _ _ h; cases h
  | succ fuel ih =>
    intro acc ts v rest h
    cases ts with
    | nil =>
      cases h
      exact ⟨fun hc => TokenType.noConfusion hc,
        fun hc => TokenType.noConfusion hc⟩
    | cons t rest2 =>
      obtain ⟨tt, lit⟩ := t
      cases tt
      case ASTERISK =>
        rw [ref_term_loop_ast] at h
        split at h
        next v1 rest1 hf => exact ih _ _ _ _ h
        next => cases h
      case SLASH =>
        rw [ref_term_loop_slash] at h
        split at h
        next v1 rest1 hf =>
          split at h
          · cases h
          · exact ih _ _ _ _ h
        next => cases h
      all_goals
        (cases h
         exact ⟨fun hc => TokenType.noConfusion hc,
           fun hc => TokenType.noConfusion hc⟩)

/-- The remainder of a reference term never starts with a `*` or `/` token. -/
theorem ref_term_rest (fuel : Nat) (ts : List Token) (v : Int)
    (rest : List Token)
    (h : ref_term fuel ts = some (v, rest)) :
    (cur_tok rest).token_type ≠ TokenType.ASTERISK ∧
    (cur_tok rest).token_type ≠ TokenType.SLASH := by
  cases fuel with
  | zero => cases h
  | succ fuel =>
    rw [ref_term_succ] at h
    split at h
    next v1 rest1 hf => exact ref_term_loop_rest fuel _ _ _ _ h
    next => cases h

/-- The sum loop stops exactly at a non-additive head; together with the
term facts its remainder starts with none of the four operators. -/
theorem ref_sum_loop_rest (fuel : Nat) :
    ∀ (acc : Int) (ts : List Token) (v : Int) (rest : List Token),
      (cur_tok ts).token_type ≠ TokenType.ASTERISK →
      (cur_tok ts).token_type ≠ TokenType.SLASH →
      ref_sum_loop fuel acc ts = some (v, rest) →
      (cur_tok rest).token_type ≠ TokenType.PLUS ∧
      (cur_tok rest).token_type ≠ TokenType.MINUS ∧
      (cur_tok rest).token_type ≠ TokenType.ASTERISK ∧
      (cur_tok rest).token_type ≠ TokenType.SLASH := by
  induction fuel with
  | zero => intro _ _ _ _ _ _ h; cases h
  | succ fuel ih =>
    intro acc ts v rest hA hS h
    cases ts with
    | nil =>
      cases h
      exact ⟨fun hc => TokenType.noConfusion hc,
        fun hc => TokenType.noConfusion hc, hA, hS⟩
    | cons t rest2 =>
      obtain ⟨tt, lit⟩ := t
      cases tt
      case PLUS =>
        rw [ref_sum_loop_plus] at h
        split at h
        next v1 rest1 hf =>
          obtain ⟨h1, h2⟩ := ref_term_rest fuel _ _ _ hf
          exact ih _ _ _ _ h1 h2 h
        next => cases h
      case MINUS =>
        rw [ref_sum_loop_minus] at h
        split at h
        next v1 rest1 hf =>
          obtain ⟨h1, h2⟩ := ref_term_rest fuel _ _ _ hf
          exact ih _ _ _ _ h1 h2 h
        next => cases h
      all_goals
        (cases h
         exact ⟨fun hc => TokenType.noConfusion hc,
           fun hc => TokenType.noConfusion hc, hA, hS⟩)

/-- The remainder of a reference sum starts with none of `+ - * /`. -/
theorem ref_sum_rest (fuel : Nat) (ts : List Token) (v : Int)
    (rest : List Token)
    (h : ref_sum fuel ts = some (v, rest)) :
    (cur_tok rest).token_type ≠ TokenType.PLUS ∧
    (cur_tok rest).token_type ≠ TokenType.MINUS ∧
    (cur_tok rest).token_type ≠ TokenType.ASTERISK ∧
    (cur_tok rest).token_type ≠ TokenType.SLASH := by
  cases fuel with
  | zero => cases h
  | succ fuel =>
    rw [ref_sum_succ] at h
    split at h
    next v1 rest1 hf =>
      obtain ⟨h1, h2⟩ := ref_term_rest fuel _ _ _ hf
      exact ref_sum_loop_rest fuel _ _ _ _ h1 h2 h
    next => cases h

/-! ## Equivalence of the parser-evaluator pipeline with the reference
grammar on arithmetic inputs (claim C1) -/

theorem cur_tok_cons (t : Token) (l : List Token) : cur_tok (t :: l) = t := rfl

theorem peek_eq_cur_adv (ts : List Token) : peek_tok ts = cur_tok (adv ts) := rfl

/-! Definitional unfolding equations of the parser at successor fuel,
stated so that they hold by `rfl`. -/

theorem parse_expression_succ (f : Nat) (p : Precedence) (ts : List Token) :
    parse_expression (f + 1) p ts =
      (match parse_prefix_dispatch f ts with
        | Except.error e => Except.error e
        | Except.ok (left, ts1) => pratt_loop f p left ts1) := rfl

theorem pratt_loop_succ (f : Nat) (p : Precedence) (left : Expression)
    (ts : List Token) :
    pratt_loop (f + 1) p left ts =
      (if (peek_tok ts).token_type ≠ TokenType.SEMICOLON ∧
          Precedence.lt p
            (Precedence.from_token_type (peek_tok ts).token_type) then
        match parse_infix_dispatch f left (adv ts) with
        | Except.error e => Except.error e
        | Except.ok (left2, ts2) => pratt_loop f p left2 ts2
      else Except.ok (left, ts)) := rfl

theorem parse_prefix_dispatch_int (f : Nat) (lit : String) (rest : List Token) :
    parse_prefix_dispatch (f + 1) (⟨TokenType.INT, lit⟩ :: rest) =
      parse_integer_literal (⟨TokenType.INT, lit⟩ :: rest) := rfl

theorem parse_prefix_dispatch_minus (f : Nat) (lit : String)
    (rest : List Token) :
    parse_prefix_dispatch (f + 1) (⟨TokenType.MINUS, lit⟩ :: rest) =
      parse_prefix_expression f (⟨TokenType.MINUS, lit⟩ :: rest) := rfl

theorem parse_prefix_dispatch_lparen (f : Nat) (lit : String)
    (rest : List Token) :
    parse_prefix_dispatch (f + 1) (⟨TokenType.LPAREN, lit⟩ :: rest) =
      parse_grouped_expression f (⟨TokenType.LPAREN, lit⟩ :: rest) := rfl

theorem parse_infix_dispatch_plus (f : Nat) (left : Expression) (lit : String)
    (rest : List Token) :
    parse_infix_dispatch (f + 1) left (⟨TokenType.PLUS, lit⟩ :: rest) =
      parse_infix_expression f left (⟨TokenType.PLUS, lit⟩ :: rest) := rfl

theorem parse_infix_dispatch_minus (f : Nat) (left : Expression) (lit : String)
    (rest : List Token) :
    parse_infix_dispatch (f + 1) left (⟨TokenType.MINUS, lit⟩ :: rest) =
      parse_infix_expression f left (⟨TokenType.MINUS, lit⟩ :: rest) := rfl

theorem parse_infix_dispatch_ast (f : Nat) (left : Expression) (lit : String)
    (rest : List Token) :
    parse_infix_dispatch (f + 1) left (⟨TokenType.ASTERISK, lit⟩ :: rest) =
      parse_infix_expression f left (⟨TokenType.ASTERISK, lit⟩ :: rest) := rfl

theorem parse_infix_dispatch_slash (f : Nat) (left : Expression) (lit : String)
    (rest : List Token) :
    parse_infix_dispatch (f + 1) left (⟨TokenType.SLASH, lit⟩ :: rest) =
      parse_infix_expression f left (⟨TokenType.SLASH, lit⟩ :: rest) := rfl

theorem parse_prefix_expression_minus (f : Nat) (lit : String)
    (rest : List Token) :
    parse_prefix_expression (f + 1) (⟨TokenType.MINUS, lit⟩ :: rest) =
      (match parse_expression f Precedence.PREFIXP rest with
        | Except.error e => Except.error e
        | Except.ok (right, ts1) =>
          Except.ok (Expression.PrefixExpression lit right, ts1)) := rfl

theorem parse_grouped_succ (f : Nat) (lit : String) (rest : List Token) :
    parse_grouped_expression (f + 1) (⟨TokenType.LPAREN, lit⟩ :: rest) =
      (match parse_expression f Precedence.LOWEST rest with
        | Except.error e => Except.error e
        | Except.ok (e, ts1) =>
          match expect_peek TokenType.RPAREN ts1 with
          | some ts2 => Except.ok (e, ts2)
          | none => Except.error (expect_msg TokenType.RPAREN ts1)) := rfl

theorem parse_infix_expression_op (f : Nat) (left : Expression)
    (tt : TokenType) (lit : String) (rest : List Token) :
    parse_infix_expression (f + 1) left (⟨tt, lit⟩ :: rest) =
      (match parse_expression f (Precedence.from_token_type tt) rest with
        | Except.error e => Except.error e
        | Except.ok (right, ts1) =>
          Except.ok (Expression.InfixExpression left lit right, ts1)) := rfl

theorem parse_expression_statement_succ (f : Nat) (ts : List Token) :
    parse_expression_statement (f + 1) ts =
      (match parse_expression f Precedence.LOWEST ts with
        | Except.error e => Except.error e
        | Except.ok (e, ts1) =>
          if (peek_tok ts1).token_type = TokenType.SEMICOLON then
            Except.ok (Statement.ExpressionStatement e, adv ts1)
          else Except.ok (Statement.ExpressionStatement e, ts1)) := rfl

theorem parse_program_loop_succ (f : Nat) (ts : List Token) :
    parse_program_loop (f + 1) ts =
      (if (cur_tok ts).token_type = TokenType.EOF then Except.ok []
      else match parse_statement f ts with
        | Except.error e => Except.error e
        | Except.ok (stmt, ts1) =>
          match parse_program_loop f (adv ts1) with
          | Except.error e => Except.error e
          | Except.ok rest =>
            Except.ok
              (if is_empty_statement stmt then rest else stmt :: rest)) := rfl

theorem parse_program_loop_nil (f : Nat) :
    parse_program_loop (f + 1) [] = Except.ok [] := rfl

/-- `parse_statement` falls through to the expression-statement arm on
anything but `LET`, `RETURN` and `LBRACE`. -/
theorem parse_statement_expr (f : Nat) (ts : List Token)
    (h1 : (cur_tok ts).token_type ≠ TokenType.LET)
    (h2 : (cur_tok ts).token_type ≠ TokenType.RETURN)
    (h3 : (cur_tok ts).token_type ≠ TokenType.LBRACE) :
    parse_statement (f + 1) ts = parse_expression_statement f ts := by
  cases ts with
  | nil => rfl
  | cons t rest =>
    obtain ⟨tt, lit⟩ := t
    cases tt <;> first
      | rfl
      | exact absurd rfl h1
      | exact absurd rfl h2
      | exact absurd rfl h3

/-- The derived precedence of every non-`LPAREN` token stays at or below
`PRODUCT`. -/
theorem from_tt_le_four {t : TokenType} (h : t ≠ TokenType.LPAREN) :
    (Precedence.from_token_type t).toNat ≤ 4 := by
  cases t <;> first
    | exact absurd rfl h
    | decide

theorem ne_lparen_of_le {t : TokenType}
    (h : (Precedence.from_token_type t).toNat ≤ 3) :
    t ≠ TokenType.LPAREN := by
  intro hc
  subst hc
  exact absurd h (by decide)

theorem ne_lparen_of_lowest {t : TokenType}
    (h : Precedence.from_token_type t = Precedence.LOWEST) :
    t ≠ TokenType.LPAREN := by
  intro hc
  subst hc
  exact Precedence.noConfusion h

theorem le_three_of_lowest {t : TokenType}
    (h : Precedence.from_token_type t = Precedence.LOWEST) :
    (Precedence.from_token_type t).toNat ≤ 3 := by
  rw [h]
  decide

/-- The Pratt loop stops when the peek precedence does not exceed the
current binding power. -/
theorem pratt_stop_of_le (f : Nat) (p : Precedence) (left : Expression)
    (ts1 : List Token)
    (h : (Precedence.from_token_type (peek_tok ts1).token_type).toNat ≤
      p.toNat) :
    pratt_loop (f + 1) p left ts1 = Except.ok (left, ts1) := by
  have hn : ¬((peek_tok ts1).token_type ≠ TokenType.SEMICOLON ∧
      Precedence.lt p
        (Precedence.from_token_type (peek_tok ts1).token_type)) := by
    intro hc
    have h2 := hc.2
    simp only [Precedence.lt] at h2
    omega
  rw [pratt_loop_succ, if_neg hn]

/-! Canonical literals of the four operator tokens on well-formed lists. -/

theorem wf_plus_lit {lit : String} {rest : List Token}
    (h : toks_wf (⟨TokenType.PLUS, lit⟩ :: rest)) : lit = "+" :=
  eq_of_beq (h _ (List.mem_cons_self _ _))

theorem wf_minus_lit {lit : String} {rest : List Token}
    (h : toks_wf (⟨TokenType.MINUS, lit⟩ :: rest)) : lit = "-" :=
  eq_of_beq (h _ (List.mem_cons_self _ _))

theorem wf_ast_lit {lit : String} {rest : List Token}
    (h : toks_wf (⟨TokenType.ASTERISK, lit⟩ :: rest)) : lit = "*" :=
  eq_of_beq (h _ (List.mem_cons_self _ _))

theorem wf_slash_lit {lit : String} {rest : List Token}
    (h : toks_wf (⟨TokenType.SLASH, lit⟩ :: rest)) : lit = "/" :=
  eq_of_beq (h _ (List.mem_cons_self _ _))

/-! Composition rules for `arith_value`. -/

theorem arith_value_neg (e : Expression) (w : Int)
    (h : arith_value e = some w) :
    arith_value (Expression.PrefixExpression "-" e) =
      some (i64wrap (- w)) := by
  simp only [arith_value]
  rw [if_pos trivial, h]

theorem arith_value_add (l r : Expression) (a b : Int)
    (hl : arith_value l = some a) (hr : arith_value r = some b) :
    arith_value (Expression.InfixExpression l "+" r) =
      some (i64wrap (a + b)) := by
  simp only [arith_value]
  rw [hl, hr]
  dsimp only
  rw [if_pos trivial]

theorem arith_value_sub (l r : Expression) (a b : Int)
    (hl : arith_value l = some a) (hr : arith_value r = some b) :
    arith_value (Expression.InfixExpression l "-" r) =
      some (i64wrap (a - b)) := by
  simp only [arith_value]
  rw [hl, hr]
  dsimp only
  rw [if_neg (by decide), if_pos trivial]

theorem arith_value_mul (l r : Expression) (a b : Int)
    (hl : arith_value l = some a) (hr : arith_value r = some b) :
    arith_value (Expression.InfixExpression l "*" r) =
      some (i64wrap (a * b)) := by
  simp only [arith_value]
  rw [hl, hr]
  dsimp only
  rw [if_neg (by decide), if_neg (by decide), if_pos trivial]

theorem arith_value_div (l r : Expression) (a b : Int)
    (hl : arith_value l = some a) (hr : arith_value r = some b)
    (hg : ¬(b = 0 ∨ (a = - 2 ^ 63 ∧ b = - 1))) :
    arith_value (Expression.InfixExpression l "/" r) =
      some (Int.tdiv a b) := by
  simp only [arith_value]
  rw [hl, hr]
  dsimp only
  rw [if_neg (by decide), if_neg (by decide), if_neg (by decide),
    if_pos trivial, if_neg hg]

/-- At fuel one the term loop acts as the identity on non-product
heads. -/
theorem ref_term_loop_one (acc : Int) (ts : List Token)
    (hA : (cur_tok ts).token_type ≠ TokenType.ASTERISK)
    (hS : (cur_tok ts).token_type ≠ TokenType.SLASH) :
    ref_term_loop 1 acc ts = some (acc, ts) := by
  cases ts with
  | nil => rfl
  | cons t rest =>
    obtain ⟨tt, lit⟩ := t
    cases tt <;> first
      | rfl
      | exact absurd rfl hA
      | exact absurd rfl hS

/-- A successful reference sum starts at an `INT`, `MINUS` or `LPAREN`
token. -/
theorem ref_sum_head (fuel : Nat) (ts : List Token) (v : Int)
    (rest : List Token) (h : ref_sum fuel ts = some (v, rest)) :
    (cur_tok ts).token_type = TokenType.INT ∨
    (cur_tok ts).token_type = TokenType.MINUS ∨
    (cur_tok ts).token_type = TokenType.LPAREN := by
  cases fuel with
  | zero => cases h
  | succ fuel =>
    rw [ref_sum_succ] at h
    split at h
    next v0 rest0 ht =>
      cases fuel with
      | zero => cases ht
      | succ f2 =>
        rw [ref_term_succ] at ht
        split at ht
        next a rf2 hfac => exact ref_factor_head f2 ts _ hfac
        next => cases ht
    next => cases h

/-- The head of a reference expression is none of the statement-keyword
tokens, and not `EOF`. -/
theorem head_stmt_facts {t : TokenType}
    (h : t = TokenType.INT ∨ t = TokenType.MINUS ∨ t = TokenType.LPAREN) :
    t ≠ TokenType.EOF ∧ t ≠ TokenType.LET ∧ t ≠ TokenType.RETURN ∧
      t ≠ TokenType.LBRACE := by
  rcases h with h | h | h <;> subst h <;>
    refine ⟨?_, ?_, ?_, ?_⟩ <;> intro hc <;> cases hc

theorem eval_statement_expression_eq (e : Expression) (env : Environment) :
    eval_statement (Statement.ExpressionStatement e) env =
      eval_expression e env := rfl

theorem eval_program_loop_cons (s : Statement) (rest : List Statement)
    (r : Object) (env : Environment) :
    eval_program_loop (s :: rest) r env =
      (match eval_statement s env with
        | RRes.ok (Object.ReturnValue v, _) => RRes.ok v
        | RRes.ok (r1, env1) => eval_program_loop rest r1 env1
        | RRes.err e => RRes.err e
        | RRes.crash e => RRes.crash e) := rfl

/-- The heart of claim C1: on well-formed token lists the Pratt parser
dispatch/loop pair produces, level by level, expressions whose
`arith_value` is exactly the reference-grammar value, consuming exactly
the same tokens.  The five conjuncts track the reference productions
(factor, term, term loop, sum, sum loop); the induction is on a length
measure `4·|ts| + rank`, so the interleaving of the two reference loops
inside the single Pratt loop at `LOWEST` needs no fuel monotonicity. -/
theorem ref_parser_equiv : ∀ n : Nat,
    (∀ (ts : List Token) (v : Int) (rest : List Token) (rf : Nat),
      4 * ts.length ≤ n →
      ref_factor rf ts = some (v, rest) → toks_wf ts →
      (cur_tok rest).token_type ≠ TokenType.LPAREN →
      ∀ f, 8 * ts.length + 8 ≤ f →
      ∃ e ts1, parse_prefix_dispatch f ts = Except.ok (e, ts1) ∧
        adv ts1 = rest ∧ arith_value e = some v) ∧
    (∀ (ts : List Token) (v : Int) (rest : List Token) (rf : Nat),
      4 * ts.length + 1 ≤ n →
      ref_term rf ts = some (v, rest) → toks_wf ts →
      (Precedence.from_token_type (cur_tok rest).token_type).toNat ≤ 3 →
      ∀ f, 8 * ts.length + 9 ≤ f →
      ∃ e ts1, parse_expression f Precedence.SUM ts = Except.ok (e, ts1) ∧
        adv ts1 = rest ∧ arith_value e = some v) ∧
    (∀ (ts : List Token) (acc v : Int) (rest : List Token) (rf : Nat),
      4 * ts.length + 3 ≤ n →
      ref_term_loop rf acc ts = some (v, rest) → toks_wf ts →
      (Precedence.from_token_type (cur_tok rest).token_type).toNat ≤ 3 →
      ∀ (left : Expression) (ts1 : List Token), adv ts1 = ts →
      arith_value left = some acc →
      ∀ f, 8 * ts.length + 8 ≤ f →
      ∃ e ts2, pratt_loop f Precedence.SUM left ts1 = Except.ok (e, ts2) ∧
        adv ts2 = rest ∧ arith_value e = some v) ∧
    (∀ (ts : List Token) (v : Int) (rest : List Token) (rf : Nat),
      4 * ts.length + 2 ≤ n →
      ref_sum rf ts = some (v, rest) → toks_wf ts →
      Precedence.from_token_type (cur_tok rest).token_type =
        Precedence.LOWEST →
      ∀ f, 8 * ts.length + 9 ≤ f →
      ∃ e ts1, parse_expression f Precedence.LOWEST ts = Except.ok (e, ts1) ∧
        adv ts1 = rest ∧ arith_value e = some v) ∧
    (∀ (ts : List Token) (acc t : Int) (restT : List Token) (v : Int)
        (rest : List Token) (rf1 rf2 : Nat),
      4 * ts.length + 3 ≤ n →
      ref_term_loop rf1 acc ts = some (t, restT) →
      ref_sum_loop rf2 t restT = some (v, rest) → toks_wf ts →
      Precedence.from_token_type (cur_tok rest).token_type =
        Precedence.LOWEST →
      ∀ (left : Expression) (ts1 : List Token), adv ts1 = ts →
      arith_value left = some acc →
      ∀ f, 8 * ts.length + 8 ≤ f →
      ∃ e ts2, pratt_loop f Precedence.LOWEST left ts1 = Except.ok (e, ts2) ∧
        adv ts2 = rest ∧ arith_value e = some v) := by
  intro n
  induction n using Nat.strong_induction_on with
  | _ n ih =>
  refine ⟨?_, ?_, ?_, ?_, ?_⟩
  -- factor ↔ parse_prefix_dispatch
  · intro ts v rest rf hm h hwf hnl f hf
    cases rf with
    | zero => cases h
    | succ rf =>
      cases ts with
      | nil => cases h
      | cons tk rest2 =>
        obtain ⟨tt, lit⟩ := tk
        simp only [List.length_cons] at hm hf
        cases tt
        case INT =>
          rw [ref_factor_int] at h
          split at h
          next w hw =>
            cases h
            obtain ⟨f1, rfl⟩ : ∃ g, f = g + 1 := ⟨f - 1, by omega⟩
            refine ⟨Expression.IntegerLiteral v,
              ⟨TokenType.INT, lit⟩ :: rest, ?_, rfl, rfl⟩
            rw [parse_prefix_dispatch_int]
            simp only [parse_integer_literal, cur_tok_cons]
            rw [hw]
          next => cases h
        case MINUS =>
          have hlit := wf_minus_lit hwf
          subst hlit
          rw [ref_factor_minus] at h
          split at h
          next v0 rest0 hf0 =>
            cases h
            obtain ⟨f4, rfl⟩ : ∃ g, f = g + 1 + 1 + 1 + 1 :=
              ⟨f - 4, by omega⟩
            have hmem := ih (n - 1) (by omega)
            obtain ⟨e0, tsE, hpd, hadv, hval⟩ := hmem.1 rest2 v0 rest rf
              (by omega) hf0 (toks_wf_tail hwf) hnl (f4 + 1) (by omega)
            have hstop := pratt_stop_of_le f4 Precedence.PREFIXP e0 tsE
              (by rw [peek_eq_cur_adv, hadv]
                  exact le_trans (from_tt_le_four hnl) (by decide))
            refine ⟨Expression.PrefixExpression "-" e0, tsE, ?_, hadv,
              arith_value_neg e0 v0 hval⟩
            rw [parse_prefix_dispatch_minus, parse_prefix_expression_minus,
              parse_expression_succ, hpd]
            dsimp only
            rw [hstop]
          next => cases h
        case LPAREN =>
          rw [ref_factor_lparen] at h
          split at h
          next v0 rest0 hs0 =>
            split at h
            next lit2 rest3 =>
              cases h
              obtain ⟨f2, rfl⟩ : ∃ g, f = g + 1 + 1 := ⟨f - 2, by omega⟩
              have hmem := ih (n - 1) (by omega)
              obtain ⟨e0, tsE, hpe, hadv, hval⟩ := hmem.2.2.2.1 rest2 v
                (⟨TokenType.RPAREN, lit2⟩ :: rest) rf (by omega) hs0
                (toks_wf_tail hwf) rfl f2 (by omega)
              have hexp : expect_peek TokenType.RPAREN tsE =
                  some (⟨TokenType.RPAREN, lit2⟩ :: rest) := by
                simp only [expect_peek]
                rw [peek_eq_cur_adv, hadv]
                dsimp only [cur_tok_cons]
                rw [if_pos rfl]
              refine ⟨e0, ⟨TokenType.RPAREN, lit2⟩ :: rest, ?_, rfl, hval⟩
              rw [parse_prefix_dispatch_lparen, parse_grouped_succ, hpe]
              dsimp only
              rw [hexp]
            next => cases h
          next => cases h
        all_goals cases h
  -- term ↔ parse_expression at SUM
  · intro ts v rest rf hm h hwf hle f hf
    cases rf with
    | zero => cases h
    | succ rf =>
      rw [ref_term_succ] at h
      split at h
      next v0 rest0 hfac =>
        obtain ⟨f1, rfl⟩ : ∃ g, f = g + 1 := ⟨f - 1, by omega⟩
        have hhT := ref_term_loop_head rf v0 rest0 v rest h
        have hnlF : (cur_tok rest0).token_type ≠ TokenType.LPAREN := by
          rcases hhT with he | hA | hS2
          · rw [he]; exact ne_lparen_of_le hle
          · rw [hA]; exact fun hc => TokenType.noConfusion hc
          · rw [hS2]; exact fun hc => TokenType.noConfusion hc
        have hmem := ih (n - 1) (by omega)
        obtain ⟨e0, tsE, hpd, hadv, hval⟩ := hmem.1 ts v0 rest0 rf
          (by omega) hfac hwf hnlF f1 (by omega)
        have hcons := (ref_consumes rf).1 ts v0 rest0 hfac
        obtain ⟨e2, ts2, hloop, hadv2, hval2⟩ := hmem.2.2.1 rest0 v0 v rest
          rf (by omega) h
          (toks_wf_suffix ((ref_suffix rf).1 _ _ _ hfac) hwf) hle e0 tsE
          hadv hval f1 (by omega)
        refine ⟨e2, ts2, ?_, hadv2, hval2⟩
        rw [parse_expression_succ, hpd]
        dsimp only
        exact hloop
      next => cases h
  -- term loop ↔ pratt loop at SUM
  · intro ts acc v rest rf hm h hwf hle left ts1 hts1 hvleft f hf
    cases rf with
    | zero => cases h
    | succ rf =>
      cases ts with
      | nil =>
        cases h
        obtain ⟨f1, rfl⟩ : ∃ g, f = g + 1 := ⟨f - 1, by omega⟩
        exact ⟨left, ts1, pratt_stop_of_le f1 _ left ts1
          (by rw [peek_eq_cur_adv, hts1]; exact hle), hts1, hvleft⟩
      | cons tk rest2 =>
        obtain ⟨tt, lit⟩ := tk
        simp only [List.length_cons] at hm hf
        cases tt
        case ASTERISK =>
          have hlit := wf_ast_lit hwf
          subst hlit
          rw [ref_term_loop_ast] at h
          split at h
          next v1 rest1 hfac =>
            obtain ⟨f5, rfl⟩ : ∃ g, f = g + 1 + 1 + 1 + 1 + 1 :=
              ⟨f - 5, by omega⟩
            have hhT := ref_term_loop_head rf _ rest1 v rest h
            have hnl1 : (cur_tok rest1).token_type ≠ TokenType.LPAREN := by
              rcases hhT with he | hA | hS2
              · rw [he]; exact ne_lparen_of_le hle
              · rw [hA]; exact fun hc => TokenType.noConfusion hc
              · rw [hS2]; exact fun hc => TokenType.noConfusion hc
            have hmem := ih (n - 1) (by omega)
            obtain ⟨e1, tsE1, hpd1, hadv1, hval1⟩ := hmem.1 rest2 v1 rest1
              rf (by omega) hfac (toks_wf_tail hwf) hnl1 (f5 + 1) (by omega)
            have hcons := (ref_consumes rf).1 rest2 v1 rest1 hfac
            obtain ⟨e2, ts2, hloop, hadv2, hval2⟩ := hmem.2.2.1 rest1
              (i64wrap (acc * v1)) v rest rf (by omega) h
              (toks_wf_suffix ((ref_suffix rf).1 _ _ _ hfac)
                (toks_wf_tail hwf)) hle
              (Expression.InfixExpression left "*" e1) tsE1 hadv1
              (arith_value_mul left e1 acc v1 hvleft hval1)
              (f5 + 1 + 1 + 1 + 1) (by omega)
            have hpk : peek_tok ts1 = (⟨TokenType.ASTERISK, "*"⟩ : Token) := by
              rw [peek_eq_cur_adv, hts1]
              exact cur_tok_cons _ _
            have hcond : (peek_tok ts1).token_type ≠ TokenType.SEMICOLON ∧
                Precedence.lt Precedence.SUM
                  (Precedence.from_token_type (peek_tok ts1).token_type) := by
              rw [hpk]
              exact ⟨fun hc => TokenType.noConfusion hc, by decide⟩
            have hpe : parse_expression (f5 + 1 + 1)
                (Precedence.from_token_type TokenType.ASTERISK) rest2 =
                Except.ok (e1, tsE1) := by
              rw [parse_expression_succ, hpd1]
              dsimp only
              exact pratt_stop_of_le f5 _ e1 tsE1
                (by rw [peek_eq_cur_adv, hadv1]
                    exact from_tt_le_four hnl1)
            refine ⟨e2, ts2, ?_, hadv2, hval2⟩
            rw [pratt_loop_succ, if_pos hcond, hts1,
              parse_infix_dispatch_ast, parse_infix_expression_op, hpe]
            dsimp only
            exact hloop
          next => cases h
        case SLASH =>
          have hlit := wf_slash_lit hwf
          subst hlit
          rw [ref_term_loop_slash] at h
          split at h
          next v1 rest1 hfac =>
            split at h
            next hg => cases h
            next hg =>
              obtain ⟨f5, rfl⟩ : ∃ g, f = g + 1 + 1 + 1 + 1 + 1 :=
                ⟨f - 5, by omega⟩
              have hhT := ref_term_loop_head rf _ rest1 v rest h
              have hnl1 : (cur_tok rest1).token_type ≠ TokenType.LPAREN := by
                rcases hhT with he | hA | hS2
                · rw [he]; exact ne_lparen_of_le hle
                · rw [hA]; exact fun hc => TokenType.noConfusion hc
                · rw [hS2]; exact fun hc => TokenType.noConfusion hc
              have hmem := ih (n - 1) (by omega)
              obtain ⟨e1, tsE1, hpd1, hadv1, hval1⟩ := hmem.1 rest2 v1 rest1
                rf (by omega) hfac (toks_wf_tail hwf) hnl1 (f5 + 1)
                (by omega)
              have hcons := (ref_consumes rf).1 rest2 v1 rest1 hfac
              obtain ⟨e2, ts2, hloop, hadv2, hval2⟩ := hmem.2.2.1 rest1
                (Int.tdiv acc v1) v rest rf (by omega) h
                (toks_wf_suffix ((ref_suffix rf).1 _ _ _ hfac)
                  (toks_wf_tail hwf)) hle
                (Expression.InfixExpression left "/" e1) tsE1 hadv1
                (arith_value_div left e1 acc v1 hvleft hval1 hg)
                (f5 + 1 + 1 + 1 + 1) (by omega)
              have hpk : peek_tok ts1 = (⟨TokenType.SLASH, "/"⟩ : Token) := by
                rw [peek_eq_cur_adv, hts1]
                exact cur_tok_cons _ _
              have hcond : (peek_tok ts1).token_type ≠ TokenType.SEMICOLON ∧
                  Precedence.lt Precedence.SUM
                    (Precedence.from_token_type
                      (peek_tok ts1).token_type) := by
                rw [hpk]
                exact ⟨fun hc => TokenType.noConfusion hc, by decide⟩
              have hpe : parse_expression (f5 + 1 + 1)
                  (Precedence.from_token_type TokenType.SLASH) rest2 =
                  Except.ok (e1, tsE1) := by
                rw [parse_expression_succ, hpd1]
                dsimp only
                exact pratt_stop_of_le f5 _ e1 tsE1
                  (by rw [peek_eq_cur_adv, hadv1]
                      exact from_tt_le_four hnl1)
              refine ⟨e2, ts2, ?_, hadv2, hval2⟩
              rw [pratt_loop_succ, if_pos hcond, hts1,
                parse_infix_dispatch_slash, parse_infix_expression_op, hpe]
              dsimp only
              exact hloop
          next => cases h
        all_goals
          (cases h
           obtain ⟨f1, rfl⟩ : ∃ g, f = g + 1 := ⟨f - 1, by omega⟩
           exact ⟨left, ts1, pratt_stop_of_le f1 _ left ts1
             (by rw [peek_eq_cur_adv, hts1]; exact hle), hts1, hvleft⟩)
  -- sum ↔ parse_expression at LOWEST
  · intro ts v rest rf hm h hwf hle f hf
    cases rf with
    | zero => cases h
    | succ rf =>
      rw [ref_sum_succ] at h
      split at h
      next t0 rest0 hterm =>
        cases rf with
        | zero => cases hterm
        | succ rf2 =>
          rw [ref_term_succ] at hterm
          split at hterm
          next a restF hfac =>
            obtain ⟨f1, rfl⟩ : ∃ g, f = g + 1 := ⟨f - 1, by omega⟩
            have hhT := ref_term_loop_head rf2 a restF t0 rest0 hterm
            have hhS := ref_sum_loop_head (rf2 + 1) t0 rest0 v rest h
            have hnlF : (cur_tok restF).token_type ≠ TokenType.LPAREN := by
              rcases hhT with he | hA | hS2
              · rw [he]
                rcases hhS with he2 | hP | hM
                · rw [he2]; exact ne_lparen_of_lowest hle
                · rw [hP]; exact fun hc => TokenType.noConfusion hc
                · rw [hM]; exact fun hc => TokenType.noConfusion hc
              · rw [hA]; exact fun hc => TokenType.noConfusion hc
              · rw [hS2]; exact fun hc => TokenType.noConfusion hc
            have hmem := ih (n - 1) (by omega)
            obtain ⟨e0, tsE, hpd, hadv, hval⟩ := hmem.1 ts a restF rf2
              (by omega) hfac hwf hnlF f1 (by omega)
            have hcons := (ref_consumes rf2).1 ts a restF hfac
            obtain ⟨e2, ts2, hloop, hadv2, hval2⟩ := hmem.2.2.2.2 restF a
              t0 rest0 v rest rf2 (rf2 + 1) (by omega) hterm h
              (toks_wf_suffix ((ref_suffix rf2).1 _ _ _ hfac) hwf) hle e0
              tsE hadv hval f1 (by omega)
            refine ⟨e2, ts2, ?_, hadv2, hval2⟩
            rw [parse_expression_succ, hpd]
            dsimp only
            exact hloop
          next => cases hterm
      next => cases h
  -- sum loop (with its current term continuation) ↔ pratt loop at LOWEST
  · intro ts acc t restT v rest rf1 rf2 hm hTL hSL hwf hle left ts1 hts1
      hvleft f hf
    cases ts with
    | nil =>
      cases rf1 with
      | zero => cases hTL
      | succ rf1 =>
        cases hTL
        cases rf2 with
        | zero => cases hSL
        | succ rf2 =>
          cases hSL
          obtain ⟨f1, rfl⟩ : ∃ g, f = g + 1 := ⟨f - 1, by omega⟩
          exact ⟨left, ts1, pratt_stop_of_le f1 _ left ts1
            (by rw [peek_eq_cur_adv, hts1, hle]), hts1, hvleft⟩
    | cons tk rest2 =>
      obtain ⟨tt, lit⟩ := tk
      simp only [List.length_cons] at hm hf
      cases tt
      case ASTERISK =>
        have hlit := wf_ast_lit hwf
        subst hlit
        cases rf1 with
        | zero => cases hTL
        | succ rf1 =>
          rw [ref_term_loop_ast] at hTL
          split at hTL
          next v1 rest1 hfac =>
            obtain ⟨f5, rfl⟩ : ∃ g, f = g + 1 + 1 + 1 + 1 + 1 :=
              ⟨f - 5, by omega⟩
            have hhT := ref_term_loop_head rf1 _ rest1 t restT hTL
            have hhS := ref_sum_loop_head rf2 t restT v rest hSL
            have hnl1 : (cur_tok rest1).token_type ≠ TokenType.LPAREN := by
              rcases hhT with he | hA | hS2
              · rw [he]
                rcases hhS with he2 | hP | hM
                · rw [he2]; exact ne_lparen_of_lowest hle
                · rw [hP]; exact fun hc => TokenType.noConfusion hc
                · rw [hM]; exact fun hc => TokenType.noConfusion hc
              · rw [hA]; exact fun hc => TokenType.noConfusion hc
              · rw [hS2]; exact fun hc => TokenType.noConfusion hc
            have hmem := ih (n - 1) (by omega)
            obtain ⟨e1, tsE1, hpd1, hadv1, hval1⟩ := hmem.1 rest2 v1 rest1
              rf1 (by omega) hfac (toks_wf_tail hwf) hnl1 (f5 + 1)
              (by omega)
            have hcons := (ref_consumes rf1).1 rest2 v1 rest1 hfac
            obtain ⟨e2, ts2, hloop, hadv2, hval2⟩ := hmem.2.2.2.2 rest1
              (i64wrap (acc * v1)) t restT v rest rf1 rf2 (by omega) hTL
              hSL
              (toks_wf_suffix ((ref_suffix rf1).1 _ _ _ hfac)
                (toks_wf_tail hwf)) hle
              (Expression.InfixExpression left "*" e1) tsE1 hadv1
              (arith_value_mul left e1 acc v1 hvleft hval1)
              (f5 + 1 + 1 + 1 + 1) (by omega)
            have hpk : peek_tok ts1 = (⟨TokenType.ASTERISK, "*"⟩ : Token) := by
              rw [peek_eq_cur_adv, hts1]
              exact cur_tok_cons _ _
            have hcond : (peek_tok ts1).token_type ≠ TokenType.SEMICOLON ∧
                Precedence.lt Precedence.LOWEST
                  (Precedence.from_token_type (peek_tok ts1).token_type) := by
              rw [hpk]
              exact ⟨fun hc => TokenType.noConfusion hc, by decide⟩
            have hpe : parse_expression (f5 + 1 + 1)
                (Precedence.from_token_type TokenType.ASTERISK) rest2 =
                Except.ok (e1, tsE1) := by
              rw [parse_expression_succ, hpd1]
              dsimp only
              exact pratt_stop_of_le f5 _ e1 tsE1
                (by rw [peek_eq_cur_adv, hadv1]
                    exact from_tt_le_four hnl1)
            refine ⟨e2, ts2, ?_, hadv2, hval2⟩
            rw [pratt_loop_succ, if_pos hcond, hts1,
              parse_infix_dispatch_ast, parse_infix_expression_op, hpe]
            dsimp only
            exact hloop
          next => cases hTL
      case SLASH =>
        have hlit := wf_slash_lit hwf
        subst hlit
        cases rf1 with
        | zero => cases hTL
        | succ rf1 =>
          rw [ref_term_loop_slash] at hTL
          split at hTL
          next v1 rest1 hfac =>
            split at hTL
            next hg => cases hTL
            next hg =>
              obtain ⟨f5, rfl⟩ : ∃ g, f = g + 1 + 1 + 1 + 1 + 1 :=
                ⟨f - 5, by omega⟩
              have hhT := ref_term_loop_head rf1 _ rest1 t restT hTL
              have hhS := ref_sum_loop_head rf2 t restT v rest hSL
              have hnl1 : (cur_tok rest1).token_type ≠ TokenType.LPAREN := by
                rcases hhT with he | hA | hS2
                · rw [he]
                  rcases hhS with he2 | hP | hM
                  · rw [he2]; exact ne_lparen_of_lowest hle
                  · rw [hP]; exact fun hc => TokenType.noConfusion hc
                  · rw [hM]; exact fun hc => TokenType.noConfusion hc
                · rw [hA]; exact fun hc => TokenType.noConfusion hc
                · rw [hS2]; exact fun hc => TokenType.noConfusion hc
              have hmem := ih (n - 1) (by omega)
              obtain ⟨e1, tsE1, hpd1, hadv1, hval1⟩ := hmem.1 rest2 v1
                rest1 rf1 (by omega) hfac (toks_wf_tail hwf) hnl1 (f5 + 1)
                (by omega)
              have hcons := (ref_consumes rf1).1 rest2 v1 rest1 hfac
              obtain ⟨e2, ts2, hloop, hadv2, hval2⟩ := hmem.2.2.2.2 rest1
                (Int.tdiv acc v1) t restT v rest rf1 rf2 (by omega) hTL
                hSL
                (toks_wf_suffix ((ref_suffix rf1).1 _ _ _ hfac)
                  (toks_wf_tail hwf)) hle
                (Expression.InfixExpression left "/" e1) tsE1 hadv1
                (arith_value_div left e1 acc v1 hvleft hval1 hg)
                (f5 + 1 + 1 + 1 + 1) (by omega)
              have hpk : peek_tok ts1 = (⟨TokenType.SLASH, "/"⟩ : Token) := by
                rw [peek_eq_cur_adv, hts1]
                exact cur_tok_cons _ _
              have hcond : (peek_tok ts1).token_type ≠ TokenType.SEMICOLON ∧
                  Precedence.lt Precedence.LOWEST
                    (Precedence.from_token_type
                      (peek_tok ts1).token_type) := by
                rw [hpk]
                exact ⟨fun hc => TokenType.noConfusion hc, by decide⟩
              have hpe : parse_expression (f5 + 1 + 1)
                  (Precedence.from_token_type TokenType.SLASH) rest2 =
                  Except.ok (e1, tsE1) := by
                rw [parse_expression_succ, hpd1]
                dsimp only
                exact pratt_stop_of_le f5 _ e1 tsE1
                  (by rw [peek_eq_cur_adv, hadv1]
                      exact from_tt_le_four hnl1)
              refine ⟨e2, ts2, ?_, hadv2, hval2⟩
              rw [pratt_loop_succ, if_pos hcond, hts1,
                parse_infix_dispatch_slash, parse_infix_expression_op, hpe]
              dsimp only
              exact hloop
          next => cases hTL
      case PLUS =>
        have hlit := wf_plus_lit hwf
        subst hlit
        cases rf1 with
        | zero => cases hTL
        | succ rf1 =>
          cases hTL
          cases rf2 with
          | zero => cases hSL
          | succ rf2 =>
            rw [ref_sum_loop_plus] at hSL
            split at hSL
            next v1 rest1 hterm =>
              obtain ⟨f3, rfl⟩ : ∃ g, f = g + 1 + 1 + 1 := ⟨f - 3, by omega⟩
              have hhS := ref_sum_loop_head rf2 _ rest1 v rest hSL
              have hle1 : (Precedence.from_token_type
                  (cur_tok rest1).token_type).toNat ≤ 3 := by
                rcases hhS with he | hP | hM
                · rw [he]; exact le_three_of_lowest hle
                · rw [hP]; decide
                · rw [hM]; decide
              have hmem := ih (n - 1) (by omega)
              obtain ⟨e1, tsE1, hpeT, hadv1, hval1⟩ := hmem.2.1 rest2 v1
                rest1 rf2 (by omega) hterm (toks_wf_tail hwf) hle1 f3
                (by omega)
              obtain ⟨hA1, hS1⟩ := ref_term_rest rf2 rest2 v1 rest1 hterm
              have hTL1 := ref_term_loop_one (i64wrap (acc + v1)) rest1 hA1 hS1
              have hconsT := (ref_consumes rf2).2.1 rest2 v1 rest1 hterm
              obtain ⟨e2, ts2, hloop, hadv2, hval2⟩ := hmem.2.2.2.2 rest1
                (i64wrap (acc + v1)) (i64wrap (acc + v1)) rest1 v rest 1 rf2
                (by omega) hTL1 hSL
                (toks_wf_suffix ((ref_suffix rf2).2.1 _ _ _ hterm)
                  (toks_wf_tail hwf)) hle
                (Expression.InfixExpression left "+" e1) tsE1 hadv1
                (arith_value_add left e1 acc v1 hvleft hval1)
                (f3 + 1 + 1) (by omega)
              have hpe2 : parse_expression f3
                  (Precedence.from_token_type TokenType.PLUS) rest2 =
                  Except.ok (e1, tsE1) := hpeT
              have hpk : peek_tok ts1 = (⟨TokenType.PLUS, "+"⟩ : Token) := by
                rw [peek_eq_cur_adv, hts1]
                exact cur_tok_cons _ _
              have hcond : (peek_tok ts1).token_type ≠ TokenType.SEMICOLON ∧
                  Precedence.lt Precedence.LOWEST
                    (Precedence.from_token_type (peek_tok ts1).token_type) := by
                rw [hpk]
                exact ⟨fun hc => TokenType.noConfusion hc, by decide⟩
              refine ⟨e2, ts2, ?_, hadv2, hval2⟩
              rw [pratt_loop_succ, if_pos hcond, hts1,
                parse_infix_dispatch_plus, parse_infix_expression_op, hpe2]
              dsimp only
              exact hloop
            next => cases hSL
      case MINUS =>
        have hlit := wf_minus_lit hwf
        subst hlit
        cases rf1 with
        | zero => cases hTL
        | succ rf1 =>
          cases hTL
          cases rf2 with
          | zero => cases hSL
          | succ rf2 =>
            rw [ref_sum_loop_minus] at hSL
            split at hSL
            next v1 rest1 hterm =>
              obtain ⟨f3, rfl⟩ : ∃ g, f = g + 1 + 1 + 1 := ⟨f - 3, by omega⟩
              have hhS := ref_sum_loop_head rf2 _ rest1 v rest hSL
              have hle1 : (Precedence.from_token_type
                  (cur_tok rest1).token_type).toNat ≤ 3 := by
                rcases hhS with he | hP | hM
                · rw [he]; exact le_three_of_lowest hle
                · rw [hP]; decide
                · rw [hM]; decide
              have hmem := ih (n - 1) (by omega)
              obtain ⟨e1, tsE1, hpeT, hadv1, hval1⟩ := hmem.2.1 rest2 v1
                rest1 rf2 (by omega) hterm (toks_wf_tail hwf) hle1 f3
                (by omega)
              obtain ⟨hA1, hS1⟩ := ref_term_rest rf2 rest2 v1 rest1 hterm
              have hTL1 := ref_term_loop_one (i64wrap (acc - v1)) rest1 hA1 hS1
              have hconsT := (ref_consumes rf2).2.1 rest2 v1 rest1 hterm
              obtain ⟨e2, ts2, hloop, hadv2, hval2⟩ := hmem.2.2.2.2 rest1
                (i64wrap (acc - v1)) (i64wrap (acc - v1)) rest1 v rest 1 rf2
                (by omega) hTL1 hSL
                (toks_wf_suffix ((ref_suffix rf2).2.1 _ _ _ hterm)
                  (toks_wf_tail hwf)) hle
                (Expression.InfixExpression left "-" e1) tsE1 hadv1
                (arith_value_sub left e1 acc v1 hvleft hval1)
                (f3 + 1 + 1) (by omega)
              have hpe2 : parse_expression f3
                  (Precedence.from_token_type TokenType.MINUS) rest2 =
                  Except.ok (e1, tsE1) := hpeT
              have hpk : peek_tok ts1 = (⟨TokenType.MINUS, "-"⟩ : Token) := by
                rw [peek_eq_cur_adv, hts1]
                exact cur_tok_cons _ _
              have hcond : (peek_tok ts1).token_type ≠ TokenType.SEMICOLON ∧
                  Precedence.lt Precedence.LOWEST
                    (Precedence.from_token_type (peek_tok ts1).token_type) := by
                rw [hpk]
                exact ⟨fun hc => TokenType.noConfusion hc, by decide⟩
              refine ⟨e2, ts2, ?_, hadv2, hval2⟩
              rw [pratt_loop_succ, if_pos hcond, hts1,
                parse_infix_dispatch_minus, parse_infix_expression_op, hpe2]
              dsimp only
              exact hloop
            next => cases hSL
      all_goals
        (cases rf1 with
         | zero => cases hTL
         | succ rf1 =>
           cases hTL
           cases rf2 with
           | zero => cases hSL
           | succ rf2 =>
             cases hSL
             obtain ⟨f1, rfl⟩ : ∃ g, f = g + 1 := ⟨f - 1, by omega⟩
             exact ⟨left, ts1, pratt_stop_of_le f1 _ left ts1
               (by rw [peek_eq_cur_adv, hts1, hle]), hts1, hvleft⟩)

/-! ## Print-reparse round trip on the arithmetic fragment (claim C7)

The round-trip claim is refuted by two concrete counterexamples (an
`if` whose condition prints without the parentheses the parser demands,
and two adjacent expression statements whose printed forms glue into a
call expression); the amended claim proves it on the fragment where it
does hold: single-expression-statement programs over integer literals,
`+ - * /`, prefix `-` and parentheses, printed fully parenthesized. -/

def op_token_type : String → TokenType
  | "+" => TokenType.PLUS
  | "-" => TokenType.MINUS
  | "*" => TokenType.ASTERISK
  | "/" => TokenType.SLASH
  | _ => TokenType.ILLEGAL

/-- The arithmetic expression fragment of the amended claim C7: integer
literals in `i64` range as the parser produces them, prefix `-`, and the
four binary operators. -/
def arith_wf : Expression → Bool
  | Expression.IntegerLiteral i => decide (0 ≤ i) && decide (i < 2 ^ 63)
  | Expression.PrefixExpression operator r => (operator == "-") && arith_wf r
  | Expression.InfixExpression l operator r =>
    (operator == "+" || operator == "-" || operator == "*" ||
      operator == "/") && (arith_wf l && arith_wf r)
  | _ => false

/-- The token sequence of the printed form of an arithmetic expression. -/
def arith_toks : Expression → List Token
  | Expression.IntegerLiteral i => [⟨TokenType.INT, ⟨nat_chars i.toNat⟩⟩]
  | Expression.PrefixExpression _ r =>
    ⟨TokenType.LPAREN, "("⟩ :: ⟨TokenType.MINUS, "-"⟩ ::
      (arith_toks r ++ [⟨TokenType.RPAREN, ")"⟩])
  | Expression.InfixExpression l operator r =>
    ⟨TokenType.LPAREN, "("⟩ ::
      (arith_toks l ++ ⟨op_token_type operator, operator⟩ ::
        (arith_toks r ++ [⟨TokenType.RPAREN, ")"⟩]))
  | _ => []

/-- The token the parser state rests on after parsing an arithmetic
expression (its last token). -/
def last_tok : Expression → Token
  | Expression.IntegerLiteral i => ⟨TokenType.INT, ⟨nat_chars i.toNat⟩⟩
  | _ => ⟨TokenType.RPAREN, ")"⟩

theorem nat_chars_succ (fuel n : Nat) :
    nat_chars_fuel (fuel + 1) n =
      (if n < 10 then [Char.ofNat (48 + n)]
      else nat_chars_fuel fuel (n / 10) ++ [Char.ofNat (48 + n % 10)]) := rfl

theorem digit_char_lt {m : Nat} (h : m < 10) :
    char_is_ascii_digit (Char.ofNat (48 + m)) = true := by
  interval_cases m <;> decide

theorem digit_char_val {m : Nat} (h : m < 10) :
    (Char.ofNat (48 + m)).val.toNat = 48 + m := by
  interval_cases m <;> decide

theorem digits_to_nat_append_digit (ds : List Char) (c : Char) :
    digits_to_nat (ds ++ [c]) =
      10 * digits_to_nat ds + (c.val.toNat - 48) := by
  unfold digits_to_nat
  rw [List.foldl_append]
  rfl

/-- The decimal printer emits a nonempty all-digit string that the
lexer-side conversion reads back to the same number. -/
theorem nat_chars_spec : ∀ (fuel n : Nat), n < fuel →
    nat_chars_fuel fuel n ≠ [] ∧
    (nat_chars_fuel fuel n).all char_is_ascii_digit = true ∧
    digits_to_nat (nat_chars_fuel fuel n) = n := by
  intro fuel
  induction fuel with
  | zero => intro n h; omega
  | succ fuel ih =>
    intro n h
    by_cases h10 : n < 10
    · rw [nat_chars_succ, if_pos h10]
      refine ⟨by simp, ?_, ?_⟩
      · simp [digit_char_lt h10]
      · show 10 * 0 + ((Char.ofNat (48 + n)).val.toNat - 48) = n
        rw [digit_char_val h10]
        omega
    · rw [nat_chars_succ, if_neg h10]
      have hdiv : n / 10 < fuel := by omega
      obtain ⟨ih1, ih2, ih3⟩ := ih (n / 10) hdiv
      have hm : n % 10 < 10 := Nat.mod_lt _ (by omega)
      refine ⟨by simp, ?_, ?_⟩
      · simp [List.all_append, ih2, digit_char_lt hm]
      · rw [digits_to_nat_append_digit, ih3, digit_char_val hm]
        omega

theorem nat_chars_ne_nil (n : Nat) : nat_chars n ≠ [] :=
  (nat_chars_spec (n + 1) n (by omega)).1

theorem nat_chars_all_digits (n : Nat) :
    (nat_chars n).all char_is_ascii_digit = true :=
  (nat_chars_spec (n + 1) n (by omega)).2.1

theorem digits_to_nat_nat_chars (n : Nat) :
    digits_to_nat (nat_chars n) = n :=
  (nat_chars_spec (n + 1) n (by omega)).2.2

/-- `str::parse::<i64>` inverts the decimal printer on the parser-range
integers. -/
theorem i64_from_str_nat_chars (i : Int) (h0 : 0 ≤ i) (h1 : i < 2 ^ 63) :
    i64_from_str ⟨nat_chars i.toNat⟩ = Except.ok i := by
  unfold i64_from_str
  rw [if_neg (nat_chars_ne_nil _), if_pos (nat_chars_all_digits _)]
  rw [if_pos (by rw [digits_to_nat_nat_chars]; omega)]
  rw [digits_to_nat_nat_chars]
  congr 1
  exact Int.toNat_of_nonneg h0

theorem digit_val {c : Char} (h : char_is_ascii_digit c = true) :
    48 ≤ c.val.toNat ∧ c.val.toNat ≤ 57 := by
  simp only [char_is_ascii_digit, Bool.and_eq_true, Nat.ble_eq] at h
  exact h

theorem digit_not_ws {c : Char} (h : char_is_ascii_digit c = true) :
    char_is_whitespace c = false := by
  obtain ⟨h1, h2⟩ := digit_val h
  rw [Bool.eq_false_iff]
  intro hc
  simp only [char_is_whitespace, Bool.or_eq_true, Bool.and_eq_true,
    beq_iff_eq, Nat.ble_eq] at hc
  omega

/-- On a digit symbol `next_token` reads the maximal digit run as an
`INT` token. -/
theorem digit_next_token_core {c : Char} (h : char_is_ascii_digit c = true)
    (rest : List Char) :
    next_token_core c rest =
      (⟨TokenType.INT, String.mk (c :: rest.takeWhile char_is_numeric)⟩,
        rest.dropWhile char_is_numeric) := by
  have hne : ∀ d : Char, char_is_ascii_digit d = false → c ≠ d := by
    intro d hd hc
    subst hc
    rw [h] at hd
    cases hd
  unfold next_token_core next_token_ops1 next_token_ops2 next_token_delims
  rw [if_neg (hne '=' (by decide)), if_neg (hne '+' (by decide)),
    if_neg (hne '-' (by decide)), if_neg (hne '!' (by decide)),
    if_neg (hne '*' (by decide)), if_neg (hne '/' (by decide)),
    if_neg (hne '<' (by decide)), if_neg (hne '>' (by decide)),
    if_neg (hne ',' (by decide)), if_neg (hne ';' (by decide)),
    if_neg (hne '(' (by decide)), if_neg (hne ')' (by decide)),
    if_neg (hne '\x7b' (by decide)), if_neg (hne '\x7d' (by decide)),
    if_pos h]

theorem lex_fuel_succ (fuel : Nat) (l : List Char) :
    lex_fuel (fuel + 1) l =
      (match l.dropWhile char_is_whitespace with
        | [] => []
        | c :: rest =>
          (next_token_core c rest).1 ::
            lex_fuel fuel (next_token_core c rest).2) := rfl

/-- The lexer output does not depend on the fuel once it covers the input
length. -/
theorem lex_fuel_stable : ∀ (fuel1 fuel2 : Nat) (l : List Char),
    l.length < fuel1 → l.length < fuel2 →
    lex_fuel fuel1 l = lex_fuel fuel2 l := by
  intro fuel1
  induction fuel1 with
  | zero => intro fuel2 l h1 h2; omega
  | succ fuel1 ih =>
    intro fuel2 l h1 h2
    cases fuel2 with
    | zero => omega
    | succ fuel2 =>
      rw [lex_fuel_succ, lex_fuel_succ]
      cases hd : l.dropWhile char_is_whitespace with
      | nil => rfl
      | cons c rest =>
        have hsub :=
          (List.dropWhile_sublist (l := l) char_is_whitespace).length_le
        rw [hd] at hsub
        simp only [List.length_cons] at hsub
        have hcore := next_token_core_length c rest
        dsimp only
        rw [ih fuel2 ((next_token_core c rest).2) (by omega) (by omega)]

theorem lex_list_cons_step (c : Char) (l : List Char)
    (h : char_is_whitespace c = false) :
    lex_list (c :: l) =
      (next_token_core c l).1 :: lex_list (next_token_core c l).2 := by
  unfold lex_list
  simp only [List.length_cons]
  rw [lex_fuel_succ, List.dropWhile_cons, if_neg (by simp [h])]
  have hcore := next_token_core_length c l
  dsimp only
  rw [lex_fuel_stable (l.length + 1) ((next_token_core c l).2.length + 1)
    ((next_token_core c l).2) (by omega) (by omega)]

theorem lex_list_space (l : List Char) :
    lex_list (' ' :: l) = lex_list l := by
  unfold lex_list
  simp only [List.length_cons]
  rw [lex_fuel_succ, List.dropWhile_cons, if_pos (by decide)]
  rw [← lex_fuel_succ]
  exact lex_fuel_stable _ _ _ (by omega) (by omega)

theorem lex_list_lparen (l : List Char) :
    lex_list ('(' :: l) = ⟨TokenType.LPAREN, "("⟩ :: lex_list l := by
  rw [lex_list_cons_step '(' l (by decide)]
  rfl

theorem lex_list_rparen (l : List Char) :
    lex_list (')' :: l) = ⟨TokenType.RPAREN, ")"⟩ :: lex_list l := by
  rw [lex_list_cons_step ')' l (by decide)]
  rfl

theorem lex_list_plus (l : List Char) :
    lex_list ('+' :: l) = ⟨TokenType.PLUS, "+"⟩ :: lex_list l := by
  rw [lex_list_cons_step '+' l (by decide)]
  rfl

theorem lex_list_minus_tok (l : List Char) :
    lex_list ('-' :: l) = ⟨TokenType.MINUS, "-"⟩ :: lex_list l := by
  rw [lex_list_cons_step '-' l (by decide)]
  rfl

theorem lex_list_ast (l : List Char) :
    lex_list ('*' :: l) = ⟨TokenType.ASTERISK, "*"⟩ :: lex_list l := by
  rw [lex_list_cons_step '*' l (by decide)]
  rfl

theorem lex_list_slash (l : List Char) :
    lex_list ('/' :: l) = ⟨TokenType.SLASH, "/"⟩ :: lex_list l := by
  rw [lex_list_cons_step '/' l (by decide)]
  rfl

theorem takeWhile_all_append (l1 l2 : List Char) (p : Char → Bool)
    (h : l1.all p = true) :
    (l1 ++ l2).takeWhile p = l1 ++ l2.takeWhile p := by
  induction l1 with
  | nil => rfl
  | cons a l1 ih =>
    simp only [List.all_cons, Bool.and_eq_true] at h
    simp [List.takeWhile_cons, h.1, ih h.2]

theorem dropWhile_all_append (l1 l2 : List Char) (p : Char → Bool)
    (h : l1.all p = true) :
    (l1 ++ l2).dropWhile p = l2.dropWhile p := by
  induction l1 with
  | nil => rfl
  | cons a l1 ih =>
    simp only [List.all_cons, Bool.and_eq_true] at h
    simp [List.dropWhile_cons, h.1, ih h.2]

theorem takeWhile_head_false (l : List Char) (p : Char → Bool)
    (h : ∀ c, l.head? = some c → p c = false) : l.takeWhile p = [] := by
  cases l with
  | nil => rfl
  | cons a l => simp [List.takeWhile_cons, h a rfl]

theorem dropWhile_head_false (l : List Char) (p : Char → Bool)
    (h : ∀ c, l.head? = some c → p c = false) : l.dropWhile p = l := by
  cases l with
  | nil => rfl
  | cons a l => simp [List.dropWhile_cons, h a rfl]

/-- A maximal digit run followed by a non-digit boundary lexes to one
`INT` token carrying exactly the run. -/
theorem lex_list_digits (ds l : List Char) (hne : ds ≠ [])
    (hall : ds.all char_is_ascii_digit = true)
    (hhead : ∀ c, l.head? = some c → char_is_ascii_digit c = false) :
    lex_list (ds ++ l) = ⟨TokenType.INT, ⟨ds⟩⟩ :: lex_list l := by
  cases ds with
  | nil => exact absurd rfl hne
  | cons c ds2 =>
    simp only [List.all_cons, Bool.and_eq_true] at hall
    rw [List.cons_append,
      lex_list_cons_step c (ds2 ++ l) (digit_not_ws hall.1),
      digit_next_token_core hall.1]
    dsimp only
    rw [takeWhile_all_append ds2 l char_is_numeric hall.2,
      takeWhile_head_false l char_is_numeric hhead,
      dropWhile_all_append ds2 l char_is_numeric hall.2,
      dropWhile_head_false l char_is_numeric hhead,
      List.append_nil]

/-- Printed arithmetic expressions lex back to exactly their token
sequences (in any non-digit right context). -/
theorem lex_print_arith : ∀ (e : Expression), arith_wf e = true →
    ∀ (l : List Char),
      (∀ c, l.head? = some c → char_is_ascii_digit c = false) →
      lex_list (expr_chars e ++ l) = arith_toks e ++ lex_list l
  | Expression.IntegerLiteral i, hwf, l, hb => by
    simp only [arith_wf, Bool.and_eq_true, decide_eq_true_eq] at hwf
    show lex_list (int_chars i ++ l) = _
    rw [int_chars, if_neg (by omega)]
    rw [lex_list_digits (nat_chars i.toNat) l (nat_chars_ne_nil _)
      (nat_chars_all_digits _) hb]
    rfl
  | Expression.PrefixExpression op r, hwf, l, hb => by
    simp only [arith_wf, Bool.and_eq_true] at hwf
    obtain ⟨hop, hwr⟩ := hwf
    have hop2 := eq_of_beq hop
    subst hop2
    simp only [expr_chars]
    simp only [List.cons_append, List.append_assoc, List.nil_append,
      List.singleton_append]
    rw [lex_list_lparen, lex_list_minus_tok,
      lex_print_arith r hwr (')' :: l) (by intro c hc; cases hc; decide),
      lex_list_rparen]
    simp [arith_toks, List.cons_append, List.append_assoc]
  | Expression.InfixExpression l0 op r, hwf, l, hb => by
    simp only [arith_wf, Bool.and_eq_true, Bool.or_eq_true] at hwf
    obtain ⟨hop, hwl, hwr⟩ := hwf
    rcases hop with ((hop | hop) | hop) | hop
    · have hop2 := eq_of_beq hop
      subst hop2
      simp only [expr_chars]
      simp only [List.cons_append, List.append_assoc, List.nil_append,
        List.singleton_append]
      rw [lex_list_lparen,
        lex_print_arith l0 hwl
          (' ' :: '+' :: ' ' :: (expr_chars r ++ ')' :: l))
          (by intro c hc; cases hc; decide),
        lex_list_space, lex_list_plus, lex_list_space,
        lex_print_arith r hwr (')' :: l)
          (by intro c hc; cases hc; decide),
        lex_list_rparen]
      simp [arith_toks, op_token_type, List.cons_append, List.append_assoc]
    · have hop2 := eq_of_beq hop
      subst hop2
      simp only [expr_chars]
      simp only [List.cons_append, List.append_assoc, List.nil_append,
        List.singleton_append]
      rw [lex_list_lparen,
        lex_print_arith l0 hwl
          (' ' :: '-' :: ' ' :: (expr_chars r ++ ')' :: l))
          (by intro c hc; cases hc; decide),
        lex_list_space, lex_list_minus_tok, lex_list_space,
        lex_print_arith r hwr (')' :: l)
          (by intro c hc; cases hc; decide),
        lex_list_rparen]
      simp [arith_toks, op_token_type, List.cons_append, List.append_assoc]
    · have hop2 := eq_of_beq hop
      subst hop2
      simp only [expr_chars]
      simp only [List.cons_append, List.append_assoc, List.nil_append,
        List.singleton_append]
      rw [lex_list_lparen,
        lex_print_arith l0 hwl
          (' ' :: '*' :: ' ' :: (expr_chars r ++ ')' :: l))
          (by intro c hc; cases hc; decide),
        lex_list_space, lex_list_ast, lex_list_space,
        lex_print_arith r hwr (')' :: l)
          (by intro c hc; cases hc; decide),
        lex_list_rparen]
      simp [arith_toks, op_token_type, List.cons_append, List.append_assoc]
    · have hop2 := eq_of_beq hop
      subst hop2
      simp only [expr_chars]
      simp only [List.cons_append, List.append_assoc, List.nil_append,
        List.singleton_append]
      rw [lex_list_lparen,
        lex_print_arith l0 hwl
          (' ' :: '/' :: ' ' :: (expr_chars r ++ ')' :: l))
          (by intro c hc; cases hc; decide),
        lex_list_space, lex_list_slash, lex_list_space,
        lex_print_arith r hwr (')' :: l)
          (by intro c hc; cases hc; decide),
        lex_list_rparen]
      simp [arith_toks, op_token_type, List.cons_append, List.append_assoc]
  | Expression.EmptyExpression, hwf, _, _ => by cases hwf
  | Expression.Identifier _, hwf, _, _ => by cases hwf
  | Expression.Boolean _, hwf, _, _ => by cases hwf
  | Expression.IfExpression _ _ _, hwf, _, _ => by cases hwf
  | Expression.FunctionLiteral _ _, hwf, _, _ => by cases hwf
  | Expression.CallExpression _ _, hwf, _, _ => by cases hwf

theorem adv_cons (t : Token) (l : List Token) : adv (t :: l) = l := rfl

theorem peek_cons2 (a b : Token) (l : List Token) :
    peek_tok (a :: b :: l) = b := rfl

/-- The token sequence of a printed arithmetic expression parses back to
exactly that expression, in any right context: the printer
parenthesizes every compound node, so the Pratt machinery reassembles
the same tree. -/
theorem arith_parse : ∀ (e : Expression), arith_wf e = true →
    ∀ (rest : List Token) (f : Nat), 8 * (arith_toks e).length + 8 ≤ f →
      parse_prefix_dispatch f (arith_toks e ++ rest) =
        Except.ok (e, last_tok e :: rest)
  | Expression.IntegerLiteral i, hwf, rest, f, hf => by
    simp only [arith_wf, Bool.and_eq_true, decide_eq_true_eq] at hwf
    simp only [arith_toks, List.singleton_append]
    obtain ⟨g, rfl⟩ : ∃ g, f = g + 1 := ⟨f - 1, by omega⟩
    rw [parse_prefix_dispatch_int]
    simp only [parse_integer_literal, cur_tok_cons]
    rw [i64_from_str_nat_chars i hwf.1 hwf.2]
    rfl
  | Expression.PrefixExpression op r, hwf, rest, f, hf => by
    simp only [arith_wf, Bool.and_eq_true] at hwf
    obtain ⟨hop, hwr⟩ := hwf
    have hop2 := eq_of_beq hop
    subst hop2
    simp only [arith_toks, List.length_cons, List.length_append,
      List.length_nil] at hf
    simp only [arith_toks, List.cons_append, List.append_assoc,
      List.singleton_append, List.nil_append]
    obtain ⟨g, rfl⟩ : ∃ g, f = g + 7 := ⟨f - 7, by omega⟩
    have hrec := arith_parse r hwr (⟨TokenType.RPAREN, ")"⟩ :: rest)
      (g + 1) (by omega)
    have hpe1 : parse_expression (g + 2) Precedence.PREFIXP
        (arith_toks r ++ ⟨TokenType.RPAREN, ")"⟩ :: rest) =
        Except.ok (r, last_tok r :: ⟨TokenType.RPAREN, ")"⟩ :: rest) := by
      rw [parse_expression_succ, hrec]
      dsimp only
      exact pratt_stop_of_le g _ r _ (by rw [peek_cons2]; decide)
    have hprefix : parse_prefix_expression (g + 3)
        (⟨TokenType.MINUS, "-"⟩ ::
          (arith_toks r ++ ⟨TokenType.RPAREN, ")"⟩ :: rest)) =
        Except.ok (Expression.PrefixExpression "-" r,
          last_tok r :: ⟨TokenType.RPAREN, ")"⟩ :: rest) := by
      rw [parse_prefix_expression_minus, hpe1]
    have hpe2 : parse_expression (g + 5) Precedence.LOWEST
        (⟨TokenType.MINUS, "-"⟩ ::
          (arith_toks r ++ ⟨TokenType.RPAREN, ")"⟩ :: rest)) =
        Except.ok (Expression.PrefixExpression "-" r,
          last_tok r :: ⟨TokenType.RPAREN, ")"⟩ :: rest) := by
      rw [parse_expression_succ, parse_prefix_dispatch_minus, hprefix]
      dsimp only
      exact pratt_stop_of_le (g + 3) _ _ _ (by rw [peek_cons2]; decide)
    rw [parse_prefix_dispatch_lparen, parse_grouped_succ, hpe2]
    dsimp only
    rw [show expect_peek TokenType.RPAREN
      (last_tok r :: ⟨TokenType.RPAREN, ")"⟩ :: rest) =
      some (⟨TokenType.RPAREN, ")"⟩ :: rest) from rfl]
    rfl
  | Expression.InfixExpression l0 op r, hwf, rest, f, hf => by
    simp only [arith_wf, Bool.and_eq_true, Bool.or_eq_true] at hwf
    obtain ⟨hop, hwl, hwr⟩ := hwf
    rcases hop with ((hop | hop) | hop) | hop
    · have hop2 := eq_of_beq hop
      subst hop2
      simp only [arith_toks, List.length_cons, List.length_append,
        List.length_nil] at hf
      simp only [arith_toks, op_token_type, List.cons_append,
        List.append_assoc, List.singleton_append, List.nil_append]
      obtain ⟨g, rfl⟩ : ∃ g, f = g + 8 := ⟨f - 8, by omega⟩
      have hrecR := arith_parse r hwr (⟨TokenType.RPAREN, ")"⟩ :: rest)
        (g + 1) (by omega)
      have hpeR : parse_expression (g + 2)
          (Precedence.from_token_type TokenType.PLUS)
          (arith_toks r ++ ⟨TokenType.RPAREN, ")"⟩ :: rest) =
          Except.ok (r, last_tok r :: ⟨TokenType.RPAREN, ")"⟩ :: rest) := by
        rw [parse_expression_succ, hrecR]
        dsimp only
        exact pratt_stop_of_le g _ r _ (by rw [peek_cons2]; decide)
      have hrecL := arith_parse l0 hwl
        (⟨TokenType.PLUS, "+"⟩ ::
          (arith_toks r ++ ⟨TokenType.RPAREN, ")"⟩ :: rest))
        (g + 5) (by omega)
      have hinfix : parse_infix_expression (g + 3) l0
          (⟨TokenType.PLUS, "+"⟩ ::
            (arith_toks r ++ ⟨TokenType.RPAREN, ")"⟩ :: rest)) =
          Except.ok (Expression.InfixExpression l0 "+" r,
            last_tok r :: ⟨TokenType.RPAREN, ")"⟩ :: rest) := by
        rw [parse_infix_expression_op, hpeR]
      have hpeI : parse_expression (g + 6)
          Precedence.LOWEST
          (arith_toks l0 ++ ⟨TokenType.PLUS, "+"⟩ ::
            (arith_toks r ++ ⟨TokenType.RPAREN, ")"⟩ :: rest)) =
          Except.ok (Expression.InfixExpression l0 "+" r,
            last_tok r :: ⟨TokenType.RPAREN, ")"⟩ :: rest) := by
        rw [parse_expression_succ, hrecL]
        dsimp only
        rw [pratt_loop_succ, if_pos (by
          rw [peek_cons2]
          exact ⟨fun hc => TokenType.noConfusion hc, by decide⟩)]
        rw [adv_cons, parse_infix_dispatch_plus, hinfix]
        dsimp only
        exact pratt_stop_of_le (g + 3) _ _ _ (by rw [peek_cons2]; decide)
      rw [parse_prefix_dispatch_lparen, parse_grouped_succ, hpeI]
      dsimp only
      rw [show expect_peek TokenType.RPAREN
        (last_tok r :: ⟨TokenType.RPAREN, ")"⟩ :: rest) =
        some (⟨TokenType.RPAREN, ")"⟩ :: rest) from rfl]
      rfl
    · have hop2 := eq_of_beq hop
      subst hop2
      simp only [arith_toks, List.length_cons, List.length_append,
        List.length_nil] at hf
      simp only [arith_toks, op_token_type, List.cons_append,
        List.append_assoc, List.singleton_append, List.nil_append]
      obtain ⟨g, rfl⟩ : ∃ g, f = g + 8 := ⟨f - 8, by omega⟩
      have hrecR := arith_parse r hwr (⟨TokenType.RPAREN, ")"⟩ :: rest)
        (g + 1) (by omega)
      have hpeR : parse_expression (g + 2)
          (Precedence.from_token_type TokenType.MINUS)
          (arith_toks r ++ ⟨TokenType.RPAREN, ")"⟩ :: rest) =
          Except.ok (r, last_tok r :: ⟨TokenType.RPAREN, ")"⟩ :: rest) := by
        rw [parse_expression_succ, hrecR]
        dsimp only
        exact pratt_stop_of_le g _ r _ (by rw [peek_cons2]; decide)
      have hrecL := arith_parse l0 hwl
        (⟨TokenType.MINUS, "-"⟩ ::
          (arith_toks r ++ ⟨TokenType.RPAREN, ")"⟩ :: rest))
        (g + 5) (by omega)
      have hinfix : parse_infix_expression (g + 3) l0
          (⟨TokenType.MINUS, "-"⟩ ::
            (arith_toks r ++ ⟨TokenType.RPAREN, ")"⟩ :: rest)) =
          Except.ok (Expression.InfixExpression l0 "-" r,
            last_tok r :: ⟨TokenType.RPAREN, ")"⟩ :: rest) := by
        rw [parse_infix_expression_op, hpeR]
      have hpeI : parse_expression (g + 6)
          Precedence.LOWEST
          (arith_toks l0 ++ ⟨TokenType.MINUS, "-"⟩ ::
            (arith_toks r ++ ⟨TokenType.RPAREN, ")"⟩ :: rest)) =
          Except.ok (Expression.InfixExpression l0 "-" r,
            last_tok r :: ⟨TokenType.RPAREN, ")"⟩ :: rest) := by
        rw [parse_expression_succ, hrecL]
        dsimp only
        rw [pratt_loop_succ, if_pos (by
          rw [peek_cons2]
          exact ⟨fun hc => TokenType.noConfusion hc, by decide⟩)]
        rw [adv_cons, parse_infix_dispatch_minus, hinfix]
        dsimp only
        exact pratt_stop_of_le (g + 3) _ _ _ (by rw [peek_cons2]; decide)
      rw [parse_prefix_dispatch_lparen, parse_grouped_succ, hpeI]
      dsimp only
      rw [show expect_peek TokenType.RPAREN
        (last_tok r :: ⟨TokenType.RPAREN, ")"⟩ :: rest) =
        some (⟨TokenType.RPAREN, ")"⟩ :: rest) from rfl]
      rfl
    · have hop2 := eq_of_beq hop
      subst hop2
      simp only [arith_toks, List.length_cons, List.length_append,
        List.length_nil] at hf
      simp only [arith_toks, op_token_type, List.cons_append,
        List.append_assoc, List.singleton_append, List.nil_append]
      obtain ⟨g, rfl⟩ : ∃ g, f = g + 8 := ⟨f - 8, by omega⟩
      have hrecR := arith_parse r hwr (⟨TokenType.RPAREN, ")"⟩ :: rest)
        (g + 1) (by omega)
      have hpeR : parse_expression (g + 2)
          (Precedence.from_token_type TokenType.ASTERISK)
          (arith_toks r ++ ⟨TokenType.RPAREN, ")"⟩ :: rest) =
          Except.ok (r, last_tok r :: ⟨TokenType.RPAREN, ")"⟩ :: rest) := by
        rw [parse_expression_succ, hrecR]
        dsimp only
        exact pratt_stop_of_le g _ r _ (by rw [peek_cons2]; decide)
      have hrecL := arith_parse l0 hwl
        (⟨TokenType.ASTERISK, "*"⟩ ::
          (arith_toks r ++ ⟨TokenType.RPAREN, ")"⟩ :: rest))
        (g + 5) (by omega)
      have hinfix : parse_infix_expression (g + 3) l0
          (⟨TokenType.ASTERISK, "*"⟩ ::
            (arith_toks r ++ ⟨TokenType.RPAREN, ")"⟩ :: rest)) =
          Except.ok (Expression.InfixExpression l0 "*" r,
            last_tok r :: ⟨TokenType.RPAREN, ")"⟩ :: rest) := by
        rw [parse_infix_expression_op, hpeR]
      have hpeI : parse_expression (g + 6)
          Precedence.LOWEST
          (arith_toks l0 ++ ⟨TokenType.ASTERISK, "*"⟩ ::
            (arith_toks r ++ ⟨TokenType.RPAREN, ")"⟩ :: rest)) =
          Except.ok (Expression.InfixExpression l0 "*" r,
            last_tok r :: ⟨TokenType.RPAREN, ")"⟩ :: rest) := by
        rw [parse_expression_succ, hrecL]
        dsimp only
        rw [pratt_loop_succ, if_pos (by
          rw [peek_cons2]
          exact ⟨fun hc => TokenType.noConfusion hc, by decide⟩)]
        rw [adv_cons, parse_infix_dispatch_ast, hinfix]
        dsimp only
        exact pratt_stop_of_le (g + 3) _ _ _ (by rw [peek_cons2]; decide)
      rw [parse_prefix_dispatch_lparen, parse_grouped_succ, hpeI]
      dsimp only
      rw [show expect_peek TokenType.RPAREN
        (last_tok r :: ⟨TokenType.RPAREN, ")"⟩ :: rest) =
        some (⟨TokenType.RPAREN, ")"⟩ :: rest) from rfl]
      rfl
    · have hop2 := eq_of_beq hop
      subst hop2
      simp only [arith_toks, List.length_cons, List.length_append,
        List.length_nil] at hf
      simp only [arith_toks, op_token_type, List.cons_append,
        List.append_assoc, List.singleton_append, List.nil_append]
      obtain ⟨g, rfl⟩ : ∃ g, f = g + 8 := ⟨f - 8, by omega⟩
      have hrecR := arith_parse r hwr (⟨TokenType.RPAREN, ")"⟩ :: rest)
        (g + 1) (by omega)
      have hpeR : parse_expression (g + 2)
          (Precedence.from_token_type TokenType.SLASH)
          (arith_toks r ++ ⟨TokenType.RPAREN, ")"⟩ :: rest) =
          Except.ok (r, last_tok r :: ⟨TokenType.RPAREN, ")"⟩ :: rest) := by
        rw [parse_expression_succ, hrecR]
        dsimp only
        exact pratt_stop_of_le g _ r _ (by rw [peek_cons2]; decide)
      have hrecL := arith_parse l0 hwl
        (⟨TokenType.SLASH, "/"⟩ ::
          (arith_toks r ++ ⟨TokenType.RPAREN, ")"⟩ :: rest))
        (g + 5) (by omega)
      have hinfix : parse_infix_expression (g + 3) l0
          (⟨TokenType.SLASH, "/"⟩ ::
            (arith_toks r ++ ⟨TokenType.RPAREN, ")"⟩ :: rest)) =
          Except.ok (Expression.InfixExpression l0 "/" r,
            last_tok r :: ⟨TokenType.RPAREN, ")"⟩ :: rest) := by
        rw [parse_infix_expression_op, hpeR]
      have hpeI : parse_expression (g + 6)
          Precedence.LOWEST
          (arith_toks l0 ++ ⟨TokenType.SLASH, "/"⟩ ::
            (arith_toks r ++ ⟨TokenType.RPAREN, ")"⟩ :: rest)) =
          Except.ok (Expression.InfixExpression l0 "/" r,
            last_tok r :: ⟨TokenType.RPAREN, ")"⟩ :: rest) := by
        rw [parse_expression_succ, hrecL]
        dsimp only
        rw [pratt_loop_succ, if_pos (by
          rw [peek_cons2]
          exact ⟨fun hc => TokenType.noConfusion hc, by decide⟩)]
        rw [adv_cons, parse_infix_dispatch_slash, hinfix]
        dsimp only
        exact pratt_stop_of_le (g + 3) _ _ _ (by rw [peek_cons2]; decide)
      rw [parse_prefix_dispatch_lparen, parse_grouped_succ, hpeI]
      dsimp only
      rw [show expect_peek TokenType.RPAREN
        (last_tok r :: ⟨TokenType.RPAREN, ")"⟩ :: rest) =
        some (⟨TokenType.RPAREN, ")"⟩ :: rest) from rfl]
      rfl
  | Expression.EmptyExpression, hwf, _, _, _ => by cases hwf
  | Expression.Identifier _, hwf, _, _, _ => by cases hwf
  | Expression.Boolean _, hwf, _, _, _ => by cases hwf
  | Expression.IfExpression _ _ _, hwf, _, _, _ => by cases hwf
  | Expression.FunctionLiteral _ _, hwf, _, _, _ => by cases hwf
  | Expression.CallExpression _ _, hwf, _, _, _ => by cases hwf

theorem peek_single (a : Token) : peek_tok [a] = eof_token := rfl

theorem arith_toks_head (e : Expression) (hwf : arith_wf e = true) :
    (cur_tok (arith_toks e)).token_type = TokenType.INT ∨
    (cur_tok (arith_toks e)).token_type = TokenType.LPAREN := by
  cases e <;> first
    | cases hwf
    | (left; rfl)
    | (right; rfl)

/-- The printed form of a single arithmetic expression statement parses
back to exactly the same one-statement program. -/
theorem arith_roundtrip (e : Expression) (hwf : arith_wf e = true) :
    parse_program (program_string ⟨[Statement.ExpressionStatement e]⟩) =
      Except.ok ⟨[Statement.ExpressionStatement e]⟩ := by
  have hps : program_string ⟨[Statement.ExpressionStatement e]⟩ =
      (⟨expr_chars e⟩ : String) := rfl
  rw [hps]
  have hlex : lex_string ⟨expr_chars e⟩ = arith_toks e := by
    have h1 := lex_print_arith e hwf [] (fun c hc => by cases hc)
    rw [List.append_nil] at h1
    rw [show lex_list ([] : List Char) = [] from rfl, List.append_nil] at h1
    exact h1
  have hhead3 : (cur_tok (arith_toks e)).token_type = TokenType.INT ∨
      (cur_tok (arith_toks e)).token_type = TokenType.MINUS ∨
      (cur_tok (arith_toks e)).token_type = TokenType.LPAREN := by
    rcases arith_toks_head e hwf with h | h
    · exact Or.inl h
    · exact Or.inr (Or.inr h)
  obtain ⟨hEOF, hLET, hRET, hLBR⟩ := head_stmt_facts hhead3
  have hpe : parse_expression (8 * (arith_toks e).length + 29)
      Precedence.LOWEST (arith_toks e) = Except.ok (e, [last_tok e]) := by
    obtain ⟨g, hg⟩ : ∃ g, 8 * (arith_toks e).length + 29 = g + 1 + 1 :=
      ⟨8 * (arith_toks e).length + 27, by omega⟩
    rw [hg, parse_expression_succ]
    have hd : parse_prefix_dispatch (g + 1) (arith_toks e) =
        Except.ok (e, [last_tok e]) := by
      have h2 := arith_parse e hwf [] (g + 1) (by omega)
      rwa [List.append_nil] at h2
    rw [hd]
    dsimp only
    exact pratt_stop_of_le g _ _ _ (by rw [peek_single]; decide)
  have hif : (peek_tok [last_tok e]).token_type ≠ TokenType.SEMICOLON := by
    rw [peek_single]
    exact fun hc => TokenType.noConfusion hc
  have hes : parse_expression_statement
      (8 * (arith_toks e).length + 29 + 1) (arith_toks e) =
      Except.ok (Statement.ExpressionStatement e, [last_tok e]) := by
    rw [parse_expression_statement_succ, hpe]
    dsimp only
    rw [if_neg hif]
  have hloop : parse_program_loop (8 * (arith_toks e).length + 32)
      (arith_toks e) = Except.ok [Statement.ExpressionStatement e] := by
    rw [show (8 * (arith_toks e).length + 32 : Nat) =
      8 * (arith_toks e).length + 31 + 1 from by omega]
    rw [parse_program_loop_succ, if_neg hEOF]
    rw [show (8 * (arith_toks e).length + 31 : Nat) =
      8 * (arith_toks e).length + 30 + 1 from by omega]
    rw [parse_statement_expr _ _ hLET hRET hLBR]
    rw [show (8 * (arith_toks e).length + 30 : Nat) =
      8 * (arith_toks e).length + 29 + 1 from by omega]
    rw [hes]
    dsimp only
    rw [adv_cons, parse_program_loop_nil]
    rfl
  simp only [parse_program]
  rw [hlex, hloop]

/-! ## Claim theorems -/

/-- C1: every source text with a defined standard-grammar value (integer
literals, `+ - * /`, prefix `-`, parentheses, under signed-64-bit
semantics with product over sum and left associativity) evaluates through
the whole pipeline to exactly that integer; in particular the two example
programs of the claim evaluate to 30 and 50, and those are the standard
values of their texts. -/
theorem c1_arithmetic_matches_standard_precedence :
    (∀ (src : String) (v : Int), ref_arith src = some v →
      evaluate src = RRes.ok (Object.Integer v)) ∧
    evaluate "2 * (5 + 10)" = RRes.ok (Object.Integer 30) ∧
    evaluate "(5 + 10 * 2 + 15 / 3) * 2 + -10" = RRes.ok (Object.Integer 50) ∧
    ref_arith "2 * (5 + 10)" = some 30 ∧
    ref_arith "(5 + 10 * 2 + 15 / 3) * 2 + -10" = some 50 := by
  have hgen : ∀ (src : String) (v : Int), ref_arith src = some v →
      evaluate src = RRes.ok (Object.Integer v) := by
    intro src v h
    unfold ref_arith ref_arith_toks at h
    split at h
    next v0 heq =>
      cases h
      have hwf : toks_wf (lex_string src) := lex_list_wf src.data
      have hne := (ref_consumes
        (4 * (lex_string src).length + 4)).2.2.2.1 _ _ _ heq
      have hhead := ref_sum_head _ _ _ _ heq
      obtain ⟨hEOF, hLET, hRET, hLBR⟩ := head_stmt_facts hhead
      obtain ⟨e, ts1, hpe, hadv, hval⟩ :=
        (ref_parser_equiv (4 * (lex_string src).length + 2)).2.2.2.1
          (lex_string src) v [] (4 * (lex_string src).length + 4)
          (le_refl _) heq hwf rfl
          (8 * (lex_string src).length + 29) (by omega)
      have hif : (peek_tok ts1).token_type ≠ TokenType.SEMICOLON := by
        rw [peek_eq_cur_adv, hadv]
        exact fun hc => TokenType.noConfusion hc
      have hes : parse_expression_statement
          (8 * (lex_string src).length + 29 + 1) (lex_string src) =
          Except.ok (Statement.ExpressionStatement e, ts1) := by
        rw [parse_expression_statement_succ, hpe]
        dsimp only
        rw [if_neg hif]
      have hloop : parse_program_loop
          (8 * (lex_string src).length + 32) (lex_string src) =
          Except.ok [Statement.ExpressionStatement e] := by
        rw [show (8 * (lex_string src).length + 32 : Nat) =
          8 * (lex_string src).length + 31 + 1 from by omega]
        rw [parse_program_loop_succ, if_neg hEOF]
        rw [show (8 * (lex_string src).length + 31 : Nat) =
          8 * (lex_string src).length + 30 + 1 from by omega]
        rw [parse_statement_expr _ _ hLET hRET hLBR]
        rw [show (8 * (lex_string src).length + 30 : Nat) =
          8 * (lex_string src).length + 29 + 1 from by omega]
        rw [hes]
        dsimp only
        rw [hadv, parse_program_loop_nil]
        rfl
      have hparse : parse_program src =
          Except.ok ⟨[Statement.ExpressionStatement e]⟩ := by
        simp only [parse_program]
        rw [hloop]
      have heval := arith_value_eval e v hval Environment.empty
      simp only [evaluate]
      rw [hparse]
      dsimp only
      simp only [eval_program]
      rw [eval_program_loop_cons, eval_statement_expression_eq, heval]
      rfl
    next => cases h
  exact ⟨hgen, hgen _ _ rfl, hgen _ _ rfl, rfl, rfl⟩

theorem c1_arithmetic_matches_standard_precedence_witness :
    ref_arith "2 * (5 + 10)" = some 30 ∧
      evaluate "2 * (5 + 10)" = RRes.ok (Object.Integer 30) :=
  ⟨rfl, c1_arithmetic_matches_standard_precedence.1 "2 * (5 + 10)" 30 rfl⟩


/-- C2: if some statement of an evaluated statement list yields a
return-wrapped value, list evaluation stops there and hands that wrapped
value back unchanged — appended statements are never evaluated and a list
whose head returns propagates it directly; consequently the nested-return
program of the claim evaluates to `Integer 10`. -/
theorem c2_return_short_circuits_block_evaluation :
    (∀ (l1 l2 : List Statement) (r : Object) (env env' : Environment)
        (v : Object),
        is_return_value r = false →
        eval_statement_list l1 r env = RRes.ok (Object.ReturnValue v, env') →
        eval_statement_list (l1 ++ l2) r env =
          RRes.ok (Object.ReturnValue v, env')) ∧
    (∀ (s : Statement) (l2 : List Statement) (r : Object)
        (env env' : Environment) (v : Object),
        eval_statement s env = RRes.ok (Object.ReturnValue v, env') →
        eval_statement_list (s :: l2) r env =
          RRes.ok (Object.ReturnValue v, env')) ∧
    evaluate "if (10 > 1) \x7b if (10 > 1) \x7b return 10; \x7d return 1; \x7d"
      = RRes.ok (Object.Integer 10) := by
  refine ⟨?_, ?_, rfl⟩
  · intro l1 l2 r env env' v hr h
    exact eval_statement_list_append_of_return l1 l2 r env env' v hr h
  · intro s l2 r env env' v h
    simp only [eval_statement_list]
    rw [h]

theorem c2_return_short_circuits_block_evaluation_witness :
    eval_statement_list
        [Statement.ReturnStatement (Expression.IntegerLiteral 10),
          Statement.ExpressionStatement (Expression.IntegerLiteral 1)]
        Object.Null Environment.empty =
      RRes.ok (Object.ReturnValue (Object.Integer 10), Environment.empty) ∧
    eval_statement_list
        [Statement.ReturnStatement (Expression.IntegerLiteral 7)]
        Object.Null Environment.empty =
      RRes.ok (Object.ReturnValue (Object.Integer 7), Environment.empty) := by
  constructor
  · exact c2_return_short_circuits_block_evaluation.1
      [Statement.ReturnStatement (Expression.IntegerLiteral 10)]
      [Statement.ExpressionStatement (Expression.IntegerLiteral 1)]
      Object.Null Environment.empty Environment.empty (Object.Integer 10)
      rfl rfl
  · exact c2_return_short_circuits_block_evaluation.2.1
      (Statement.ReturnStatement (Expression.IntegerLiteral 7)) []
      Object.Null Environment.empty Environment.empty (Object.Integer 7) rfl

/-- C3: a `let` binding writes only into the innermost store (the outer
chain is untouched, other names and outer bindings read the same), lookup
returns the innermost binding and walks outward only when the name is
absent locally, and the claim's shadowing program evaluates to
`Integer 5`. -/
theorem c3_let_binds_innermost_scope_only :
    (∀ (env : Environment) (n : String) (v : Object),
        (env.set n v).outer = env.outer ∧
        store_get (env.set n v).store n = some v ∧
        (∀ m, m ≠ n →
          store_get (env.set n v).store m = store_get env.store m)) ∧
    (∀ (env : Environment) (n m : String) (v : Object), m ≠ n →
        (env.set n v).get m = env.get m) ∧
    (∀ (store : List (String × Object)) (outer : Option Environment)
        (n : String) (v : Object),
        store_get store n = some v →
        Environment.get (Environment.mk store outer) n = some v) ∧
    (∀ (store : List (String × Object)) (outer : Option Environment)
        (n : String),
        store_get store n = none →
        Environment.get (Environment.mk store outer) n =
          (match outer with
            | some out => out.get n
            | none => none)) ∧
    (∀ (name : String) (value : Expression) (env : Environment),
        eval_statement (Statement.LetStatement name value) env =
          (match eval_expression value env with
            | RRes.ok (v, env1) => RRes.ok (Object.Null, env1.set name v)
            | RRes.err e => RRes.err e
            | RRes.crash e => RRes.crash e)) ∧
    evaluate "let a = 5; let b = a; let a = 10; b;" =
      RRes.ok (Object.Integer 5) := by
  refine ⟨?_, ?_, ?_, ?_, fun _ _ _ => rfl, rfl⟩
  · intro env n v
    cases env with
    | mk store outer =>
      refine ⟨rfl, ?_, ?_⟩
      · simp [Environment.set, Environment.store, store_insert, store_get]
      · intro m hm
        exact store_get_insert_ne store n m v hm
  · exact fun env n m v h => environment_get_set_ne env n m v h
  · intro store outer n v h
    rw [environment_get_mk, h]
  · intro store outer n h
    rw [environment_get_mk, h]

theorem c3_let_binds_innermost_scope_only_witness :
    (Environment.mk [] (some (Environment.mk [("a", Object.Integer 7)] none))).set
        "a" (Object.Integer 10) =
      Environment.mk [("a", Object.Integer 10)]
        (some (Environment.mk [("a", Object.Integer 7)] none)) ∧
    ((Environment.mk [("x", Object.Integer 1)] none).set "a"
        (Object.Integer 10)).get "x" =
      (Environment.mk [("x", Object.Integer 1)] none).get "x" ∧
    Environment.get
        (Environment.mk [("a", Object.Integer 2)]
          (some (Environment.mk [("a", Object.Integer 7)] none))) "a" =
      some (Object.Integer 2) := by
  refine ⟨rfl, ?_, ?_⟩
  · exact c3_let_binds_innermost_scope_only.2.1
      (Environment.mk [("x", Object.Integer 1)] none) "a" "x"
      (Object.Integer 10) (by decide)
  · exact c3_let_binds_innermost_scope_only.2.2.1
      [("a", Object.Integer 2)]
      (some (Environment.mk [("a", Object.Integer 7)] none)) "a"
      (Object.Integer 2) rfl

/-- C4: an infix expression over operands of different runtime kinds is a
"type mismatch" error, an identifier unbound in the whole chain is an
"identifier not found" error, such an error aborts list evaluation with no
partial result, and the two concrete programs of the claim produce errors
whose messages contain the quoted texts. -/
theorem c4_type_mismatch_and_unbound_identifier_errors :
    (∀ (operator : String) (l r : Object), obj_kind l ≠ obj_kind r →
        eval_infix_expression operator l r =
          RRes.err ("type mismatch: " ++ obj_debug l ++ " " ++ operator ++
            " " ++ obj_debug r)) ∧
    (∀ (name : String) (env : Environment), env.get name = none →
        eval_expression (Expression.Identifier name) env =
          RRes.err ("identifier not found: " ++ name)) ∧
    (∀ (l1 l2 : List Statement) (r : Object) (env : Environment) (e : String),
        eval_statement_list l1 r env = RRes.err e →
        eval_statement_list (l1 ++ l2) r env = RRes.err e) ∧
    (∃ pre post, evaluate "5 + true;" =
        RRes.err (pre ++ "type mismatch" ++ post)) ∧
    (∃ pre post, evaluate "foobar" =
        RRes.err (pre ++ "identifier not found" ++ post)) ∧
    evaluate "5 + true; 5;" =
      RRes.err "type mismatch: Integer(5) + Boolean(true)" := by
  refine ⟨?_, ?_, ?_, ⟨"", ": Integer(5) + Boolean(true)", rfl⟩,
    ⟨"", ": foobar", rfl⟩, rfl⟩
  · intro operator l r h
    cases l <;> cases r <;> first | rfl | simp [obj_kind] at h
  · intro name env h
    have he : eval_expression (Expression.Identifier name) env =
        (match env.get name with
          | some v => RRes.ok (v, env)
          | none => RRes.err ("identifier not found: " ++ name)) := rfl
    rw [he, h]
  · intro l1 l2 r env e h
    exact eval_statement_list_append_of_err l1 l2 r env e h

theorem c4_type_mismatch_and_unbound_identifier_errors_witness :
    eval_infix_expression "+" (Object.Integer 5) (Object.Boolean true) =
      RRes.err "type mismatch: Integer(5) + Boolean(true)" ∧
    eval_expression (Expression.Identifier "q") Environment.empty =
      RRes.err "identifier not found: q" ∧
    eval_statement_list
        [Statement.ExpressionStatement (Expression.Identifier "q"),
          Statement.ExpressionStatement (Expression.IntegerLiteral 5)]
        Object.Null Environment.empty =
      RRes.err "identifier not found: q" := by
  refine ⟨?_, ?_, ?_⟩
  · exact c4_type_mismatch_and_unbound_identifier_errors.1 "+"
      (Object.Integer 5) (Object.Boolean true) (by decide)
  · exact c4_type_mismatch_and_unbound_identifier_errors.2.1 "q"
      Environment.empty rfl
  · exact c4_type_mismatch_and_unbound_identifier_errors.2.2.1
      [Statement.ExpressionStatement (Expression.Identifier "q")]
      [Statement.ExpressionStatement (Expression.IntegerLiteral 5)]
      Object.Null Environment.empty "identifier not found: q" rfl

/-- C5: the keyword table actually checked in (`TokenType::lookup_ident`
in `token.rs`) reclassifies only `fn` and `let`; the five other keyword
words of the claim — `true`, `false`, `if`, `else`, `return` — come back
as plain `IDENT`, although the lexer's own test `test_next_token2`
requires the keyword kinds (and `TokenType` as checked in lacks those
variants altogether).  The spec-modelled full table (`lookup_ident_full`)
behaves as the claim states. -/
theorem c5_checked_in_keyword_table_knows_only_fn_and_let :
    TokenType.lookup_ident "fn" = TokenType.FUNCTION ∧
    TokenType.lookup_ident "let" = TokenType.LET ∧
    TokenType.lookup_ident "true" = TokenType.IDENT ∧
    TokenType.lookup_ident "false" = TokenType.IDENT ∧
    TokenType.lookup_ident "if" = TokenType.IDENT ∧
    TokenType.lookup_ident "else" = TokenType.IDENT ∧
    TokenType.lookup_ident "return" = TokenType.IDENT ∧
    lookup_ident_full "true" = TokenType.TRUE ∧
    lookup_ident_full "false" = TokenType.FALSE ∧
    lookup_ident_full "if" = TokenType.IF ∧
    lookup_ident_full "else" = TokenType.ELSE ∧
    lookup_ident_full "return" = TokenType.RETURN ∧
    lex_string "true" = [⟨TokenType.TRUE, "true"⟩] ∧
    lex_string "return" = [⟨TokenType.RETURN, "return"⟩] := by
  repeat' constructor

/-- C6: every call expression evaluates to `Null` through the catch-all
arm of `eval_expression`: no argument is bound, no child scope is
created, the callee is never evaluated and no error is produced; the
claim's sample call program yields `Null`. -/
theorem c6_call_expressions_evaluate_to_null :
    (∀ (function : Expression) (arguments : List Expression)
        (env : Environment),
        eval_expression (Expression.CallExpression function arguments) env =
          RRes.ok (Object.Null, env)) ∧
    (∀ (parameters : List Expression) (body : Statement) (env : Environment),
        eval_expression (Expression.FunctionLiteral parameters body) env =
          RRes.ok (Object.Null, env)) ∧
    evaluate "add(1, 2);" = RRes.ok Object.Null :=
  ⟨fun _ _ _ => rfl, fun _ _ _ => rfl, rfl⟩

/-- C8 counterexample: dividing by zero does not surface an error value —
it aborts with the Rust division panic, modelled as the `crash` outcome.
-/
theorem c8_division_by_zero_is_a_panic :
    eval_infix_expression "/" (Object.Integer 1) (Object.Integer 0) =
      RRes.crash "attempt to divide by zero" ∧
    evaluate "1 / 0" = RRes.crash "attempt to divide by zero" := ⟨rfl, rfl⟩

/-- C8 as amended: for integer operands, `/` with nonzero right operand
(and away from the `i64::MIN / -1` overflow) yields the quotient
truncated toward zero, while a zero right operand aborts evaluation with
the reproducible division panic — a defined fatal condition, not an error
value and not undefined behaviour. -/
theorem c8_division_truncates_and_zero_divisor_panics (a b : Int) :
    (b ≠ 0 → ¬(a = - 2 ^ 63 ∧ b = - 1) →
      eval_infix_expression "/" (Object.Integer a) (Object.Integer b) =
        RRes.ok (Object.Integer (Int.tdiv a b))) ∧
    (b = 0 →
      eval_infix_expression "/" (Object.Integer a) (Object.Integer b) =
        RRes.crash "attempt to divide by zero") := by
  constructor
  · intro h1 h2
    simp only [eval_infix_expression]
    rw [if_neg h1, if_neg h2]
  · intro h1
    simp only [eval_infix_expression]
    rw [if_pos h1]

theorem c8_division_truncates_and_zero_divisor_panics_witness :
    eval_infix_expression "/" (Object.Integer 7) (Object.Integer 2) =
      RRes.ok (Object.Integer 3) ∧
    eval_infix_expression "/" (Object.Integer (-7)) (Object.Integer 2) =
      RRes.ok (Object.Integer (-3)) ∧
    eval_infix_expression "/" (Object.Integer 5) (Object.Integer 0) =
      RRes.crash "attempt to divide by zero" := by
  refine ⟨?_, ?_, ?_⟩
  · have h := (c8_division_truncates_and_zero_divisor_panics 7 2).1
      (by decide) (by decide)
    rw [show Int.tdiv 7 2 = 3 from by decide] at h
    exact h
  · have h := (c8_division_truncates_and_zero_divisor_panics (-7) 2).1
      (by decide) (by decide)
    rw [show Int.tdiv (-7) 2 = -3 from by decide] at h
    exact h
  · exact (c8_division_truncates_and_zero_divisor_panics 5 0).2 rfl

/-- C9 counterexample: a non-identifier token in parameter position does
not make parsing fail — `fn(1) {}` parses successfully to a
function-literal node whose parameter is `Identifier "1"`. -/
theorem c9_integer_parameter_is_accepted :
    parse_program "fn(1) \x7b\x7d" =
      Except.ok ⟨[Statement.ExpressionStatement
        (Expression.FunctionLiteral [Expression.Identifier "1"]
          (Statement.BlockStatement []))]⟩ := rfl

/-- C9 as amended: `parse_function_parameters` never checks the kind of a
parameter token: any token other than `RPAREN` in first parameter
position is accepted and its literal is wrapped into an `Identifier`
node. -/
theorem c9_any_token_accepted_as_parameter (t : Token)
    (h : t.token_type ≠ TokenType.RPAREN) :
    parse_program_loop 80
        [⟨TokenType.FUNCTION, "fn"⟩, ⟨TokenType.LPAREN, "("⟩, t,
          ⟨TokenType.RPAREN, ")"⟩, ⟨TokenType.LBRACE, "\x7b"⟩,
          ⟨TokenType.RBRACE, "\x7d"⟩] =
      Except.ok [Statement.ExpressionStatement
        (Expression.FunctionLiteral [Expression.Identifier t.literal]
          (Statement.BlockStatement []))] := by
  obtain ⟨tt, lit⟩ := t
  cases tt <;> first | rfl | exact absurd rfl h

theorem c9_any_token_accepted_as_parameter_witness :
    parse_program_loop 80
        [⟨TokenType.FUNCTION, "fn"⟩, ⟨TokenType.LPAREN, "("⟩,
          ⟨TokenType.INT, "1"⟩, ⟨TokenType.RPAREN, ")"⟩,
          ⟨TokenType.LBRACE, "\x7b"⟩, ⟨TokenType.RBRACE, "\x7d"⟩] =
      Except.ok [Statement.ExpressionStatement
        (Expression.FunctionLiteral [Expression.Identifier "1"]
          (Statement.BlockStatement []))] :=
  c9_any_token_accepted_as_parameter ⟨TokenType.INT, "1"⟩ (by decide)

/-- C10 counterexample: the program level unwraps only one wrapper layer,
so a `return` whose expression itself evaluated to a return-wrapper hands
a `ReturnValue` to the caller. -/
theorem c10_return_wrapper_reaches_the_caller :
    evaluate "return if (1) \x7b return 2; \x7d;" =
      RRes.ok (Object.ReturnValue (Object.Integer 2)) := rfl

/-- C10 as amended: program evaluation is block-list evaluation of its
statements (from a fresh environment) with exactly one `ReturnValue`
layer unwrapped; the unwrapped value is handed over as is, and is itself
a wrapper whenever the returned expression evaluated to one. -/
theorem c10_program_level_unwraps_exactly_one_layer (p : Program) :
    eval_program p =
      (match eval_statement_list p.statements Object.Null Environment.empty with
        | RRes.ok (Object.ReturnValue v, _) => RRes.ok v
        | RRes.ok (r, _) => RRes.ok r
        | RRes.err e => RRes.err e
        | RRes.crash e => RRes.crash e) :=
  eval_program_loop_eq_statement_list p.statements Object.Null
    Environment.empty rfl

/-- C7 counterexamples: the print-and-reparse round trip is not
idempotent.  (1) `if (0) \x7b 1 \x7d` parses, but its printed form
`if 0 ...` drops the parentheses the parser demands, so the reparse
fails outright.  (2) `5;-5` parses into two expression statements whose
printed forms `5` and `(-5)` glue across the newline into the call
expression `5((-5))`, so the reparse succeeds but prints differently. -/
theorem c7_print_reparse_round_trip_fails :
    (parse_program "if (0) \x7b 1 \x7d" =
      Except.ok ⟨[Statement.ExpressionStatement
        (Expression.IfExpression (Expression.IntegerLiteral 0)
          (Statement.BlockStatement
            [Statement.ExpressionStatement (Expression.IntegerLiteral 1)])
          none)]⟩ ∧
     program_string ⟨[Statement.ExpressionStatement
        (Expression.IfExpression (Expression.IntegerLiteral 0)
          (Statement.BlockStatement
            [Statement.ExpressionStatement (Expression.IntegerLiteral 1)])
          none)]⟩ = "if 0 \x7b\n 1\n\x7d " ∧
     parse_program "if 0 \x7b\n 1\n\x7d " =
      Except.error "expected next token to be LPAREN, got INT instead") ∧
    (parse_program "5;-5" =
      Except.ok ⟨[Statement.ExpressionStatement (Expression.IntegerLiteral 5),
        Statement.ExpressionStatement
          (Expression.PrefixExpression "-" (Expression.IntegerLiteral 5))]⟩ ∧
     program_string ⟨[Statement.ExpressionStatement
          (Expression.IntegerLiteral 5),
        Statement.ExpressionStatement
          (Expression.PrefixExpression "-"
            (Expression.IntegerLiteral 5))]⟩ = "5\n(-5)" ∧
     parse_program "5\n(-5)" =
      Except.ok ⟨[Statement.ExpressionStatement
        (Expression.CallExpression (Expression.IntegerLiteral 5)
          [Expression.PrefixExpression "-" (Expression.IntegerLiteral 5)])]⟩ ∧
     program_string ⟨[Statement.ExpressionStatement
        (Expression.CallExpression (Expression.IntegerLiteral 5)
          [Expression.PrefixExpression "-"
            (Expression.IntegerLiteral 5)])]⟩ = "5((-5))" ∧
     ("5((-5))" : String) ≠ "5\n(-5)") :=
  ⟨⟨rfl, rfl, rfl⟩, rfl, rfl, rfl, rfl, by decide⟩

/-- C7 (amended): on programs consisting of one expression statement
over integer literals, `+ - * /`, prefix `-` and parentheses
(`arith_wf`), pretty-printing the parsed AST gives a text that
`parse_program` accepts again, producing the same AST, so printing the
reparse yields the identical text: the round trip is idempotent there.
The unrestricted claim fails on `if` conditions printed without
parentheses and on adjacent statements gluing into a call
(`c7_print_reparse_round_trip_fails`). -/
theorem c7_print_reparse_idempotent_on_arithmetic_statements :
    ∀ (src : String) (e : Expression) (P : Program),
      parse_program src = Except.ok P →
      P.statements = [Statement.ExpressionStatement e] →
      arith_wf e = true →
      parse_program (program_string P) = Except.ok P ∧
      ∀ P2, parse_program (program_string P) = Except.ok P2 →
        program_string P2 = program_string P := by
  intro src e P hp hs hwf
  cases P with
  | mk stmts =>
    simp only at hs
    subst hs
    have hrt := arith_roundtrip e hwf
    refine ⟨hrt, ?_⟩
    intro P2 h2
    rw [hrt] at h2
    cases h2
    rfl

theorem c7_print_reparse_idempotent_on_arithmetic_statements_witness :
    parse_program (program_string ⟨[Statement.ExpressionStatement
      (Expression.InfixExpression (Expression.IntegerLiteral 1) "+"
        (Expression.IntegerLiteral 2))]⟩) =
      Except.ok ⟨[Statement.ExpressionStatement
        (Expression.InfixExpression (Expression.IntegerLiteral 1) "+"
          (Expression.IntegerLiteral 2))]⟩ :=
  (c7_print_reparse_idempotent_on_arithmetic_statements "(1 + 2)"
    (Expression.InfixExpression (Expression.IntegerLiteral 1) "+"
      (Expression.IntegerLiteral 2))
    ⟨[Statement.ExpressionStatement
      (Expression.InfixExpression (Expression.IntegerLiteral 1) "+"
        (Expression.IntegerLiteral 2))]⟩ rfl rfl (by decide)).1

end Monkey
